import Mathlib

/-!
Verification of the F1-predictor core against its specification.

The Python sources embedded here are the constraint authoring and
conflict detection, the constrained order generator, the Monte-Carlo
season simulator (src/gui_simulator.py) and the standings accumulator
with its checkpoint cache (src/Total_points.py).  Randomness is made
explicit as an oracle tape; Python exceptions are modelled as the none
case of Option, Python dicts as association lists, and Python ints as
Int.
-/

namespace F1

/-! ## Python int() parsing and the driver-field parser

The GUI stores constraint fields as strings such as "55: Carlos Sainz"
or "7".  The code parses them with
  int(x.split(chr 58)[0]) if colon in x else int(x)
and with a bare int(x) for some fields.  pyInt models int() on a
string: optional surrounding whitespace, an optional sign, then decimal
digits; anything else raises, modelled as none. -/

def digitVal (c : Char) : Option Nat :=
  if c.isDigit then some (c.toNat - 48) else none

def digitsVal (cs : List Char) : Option Nat :=
  match cs with
  | [] => none
  | _ => cs.foldl (fun acc c => do
      let a ← acc
      let d ← digitVal c
      pure (a * 10 + d)) (some 0)

def pyTrimChars (cs : List Char) : List Char :=
  ((cs.dropWhile Char.isWhitespace).reverse.dropWhile Char.isWhitespace).reverse

def pyIntChars (cs : List Char) : Option Int :=
  match pyTrimChars cs with
  | '-' :: rest => (digitsVal rest).map (fun n => -(n : Int))
  | '+' :: rest => (digitsVal rest).map (fun n => (n : Int))
  | cs2 => (digitsVal cs2).map (fun n => (n : Int))

def pyInt (s : String) : Option Int := pyIntChars s.toList

/-- int(x.split(colon)[0]) if colon in x else int(x): the part of the
string before the first colon, if any, parsed as an int. -/
def parseDriver (s : String) : Option Int :=
  if s.toList.contains ':' then
    pyIntChars (s.toList.takeWhile (fun c => c ≠ ':'))
  else pyIntChars s.toList

/-! ## Constraint rows and conflict detection (src/gui_simulator.py, conflicts)

A scenario row is the raw string triple (type, driver1, second) coming
from the three combo boxes.  conflicts is written in Python with one
try/except around the whole body; a parse failure anywhere raises and
the except-arm returns True.  The body is modelled as an Option-valued
function (none = exception) and conflicts wraps it with getD true. -/

abbrev Scen := String × String × String

/-- The loop of the Set Position branch of conflicts: reject when an
existing Set Position row claims the same position or the same driver.
A parse failure of an existing row is an exception (none). -/
def loopSet (existing : List Scen) (d1 pos : Int) : Option Bool :=
  match existing with
  | [] => some false
  | (t, d, s) :: rest =>
    if t = "Set Position" then
      match pyInt s, parseDriver d with
      | some p, some dd =>
        if p = pos ∨ dd = d1 then some true else loopSet rest d1 pos
      | _, _ => none
    else loopSet rest d1 pos

/-- The loop of the A Above B branch of conflicts: reject on a direct
reverse pair, or when the new winner is already fixed at position 1. -/
def loopRel (existing : List Scen) (d1 d2 : Int) : Option Bool :=
  match existing with
  | [] => some false
  | (t, d, s) :: rest =>
    if t = "A Above B" then
      match parseDriver d, parseDriver s with
      | some dd1, some dd2 =>
        if dd1 = d2 ∧ dd2 = d1 then some true else loopRel rest d1 d2
      | _, _ => none
    else if t = "Set Position" then
      match parseDriver d, pyInt s with
      | some dd, some p =>
        if dd = d1 ∧ p = 1 then some true else loopRel rest d1 d2
      | _, _ => none
    else loopRel rest d1 d2

def conflictsCore (existing : List Scen) (newType newD1 newSecond : String) :
    Option Bool :=
  match parseDriver newD1 with
  | none => none
  | some d1 =>
    if newType = "Set Position" then
      match pyInt newSecond with
      | none => none
      | some pos => loopSet existing d1 pos
    else if newType = "A Above B" then
      match parseDriver newSecond with
      | none => none
      | some d2 => loopRel existing d1 d2
    else
      some false

/-- conflicts(existing, new_type, new_d1, new_second): the except-arm
turns any exception into True. -/
def conflicts (existing : List Scen) (newType newD1 newSecond : String) : Bool :=
  (conflictsCore existing newType newD1 newSecond).getD true

/-! ## update_scenarios: one row step and the per-event fold

For each event the GUI rebuilds the accepted list from the five rows: a
row is appended iff all three strings are non-empty (Python truthiness)
and conflicts accepts it.  updateList is the per-event fold starting
from the empty accepted list. -/

def updateStep (acc : List Scen) (row : Scen) : List Scen :=
  if row.1 ≠ "" ∧ row.2.1 ≠ "" ∧ row.2.2 ≠ "" ∧
      conflicts acc row.1 row.2.1 row.2.2 = false then
    acc ++ [row]
  else acc

def updateList (rows : List Scen) : List Scen :=
  rows.foldl updateStep []

/-! ## Early-exit lemmas for the conflict loops

If some row of the accepted list triggers the rejection test, the whole
loop can only answer true or raise (and the except-arm turns a raise
into true); it can never answer false. -/

theorem loopSet_ne_some_false (existing : List Scen) (d s : String)
    (c0 p0 d1 pos : Int)
    (hmem : ("Set Position", d, s) ∈ existing)
    (hd : parseDriver d = some c0) (hs : pyInt s = some p0)
    (htrig : p0 = pos ∨ c0 = d1) :
    loopSet existing d1 pos ≠ some false := by
  induction existing with
  | nil => cases hmem
  | cons head rest ih =>
    obtain ⟨t, dh, sh⟩ := head
    rcases List.mem_cons.mp hmem with heq | hmem2
    · injection heq with ht hrest
      injection hrest with hdh hsh
      subst ht; subst hdh; subst hsh
      simp only [loopSet, if_pos rfl, hs, hd, if_pos htrig]
      intro h; cases h
    · by_cases ht : t = "Set Position"
      · subst ht
        simp only [loopSet, if_pos rfl]
        cases hps : pyInt sh with
        | none => intro h; cases h
        | some p =>
          cases hpd : parseDriver dh with
          | none => intro h; cases h
          | some dd =>
            by_cases hc : p = pos ∨ dd = d1
            · simp only [if_pos hc]; intro h; cases h
            · simp only [if_neg hc]; exact ih hmem2
      · simp only [loopSet, if_neg ht]; exact ih hmem2

theorem loopRel_ne_some_false (existing : List Scen) (d s : String)
    (a b d1 d2 : Int)
    (hmem : ("A Above B", d, s) ∈ existing)
    (hd : parseDriver d = some a) (hs : parseDriver s = some b)
    (htrig : a = d2 ∧ b = d1) :
    loopRel existing d1 d2 ≠ some false := by
  induction existing with
  | nil => cases hmem
  | cons head rest ih =>
    obtain ⟨t, dh, sh⟩ := head
    rcases List.mem_cons.mp hmem with heq | hmem2
    · injection heq with ht hrest
      injection hrest with hdh hsh
      subst ht; subst hdh; subst hsh
      simp only [loopRel, if_pos rfl, hs, hd, if_pos htrig]
      intro h; cases h
    · by_cases ht : t = "A Above B"
      · subst ht
        simp only [loopRel, if_pos rfl]
        cases hpd : parseDriver dh with
        | none => intro h; cases h
        | some dd1 =>
          cases hps : parseDriver sh with
          | none => intro h; cases h
          | some dd2 =>
            by_cases hc : dd1 = d2 ∧ dd2 = d1
            · simp only [if_pos hc]; intro h; cases h
            · simp only [if_neg hc]; exact ih hmem2
      · by_cases ht2 : t = "Set Position"
        · subst ht2
          simp only [loopRel, if_neg ht, if_pos rfl]
          cases hpd : parseDriver dh with
          | none => intro h; cases h
          | some dd =>
            cases hps : pyInt sh with
            | none => intro h; cases h
            | some p =>
              by_cases hc : dd = d1 ∧ p = 1
              · simp only [if_pos hc]; intro h; cases h
              · simp only [if_neg hc]; exact ih hmem2
        · simp only [loopRel, if_neg ht, if_neg ht2]; exact ih hmem2

theorem conflicts_true_of_core_ne_some_false
    (existing : List Scen) (t d1s ss : String)
    (h : conflictsCore existing t d1s ss ≠ some false) :
    conflicts existing t d1s ss = true := by
  unfold conflicts
  cases hc : conflictsCore existing t d1s ss with
  | none => rfl
  | some b => cases b with
    | false => exact absurd hc h
    | true => rfl

theorem updateStep_of_conflict (acc : List Scen) (row : Scen)
    (h : conflicts acc row.1 row.2.1 row.2.2 = true) :
    updateStep acc row = acc := by
  unfold updateStep
  rw [if_neg]
  intro hall
  rw [h] at hall
  exact absurd hall.2.2.2 (by simp)

/-! ## Claims C6, C7, C9 -/

/-- C6: once RelativeOrder(a, b) is among the accepted rows of an event,
an attempt to add RelativeOrder(b, a) to the same event is detected as a
conflict (conflicts reports the rejection) and the row is not applied:
the accepted list is left unchanged. -/
theorem relativeOrder_reverse_rejected
    (existing : List Scen) (d s d1s ss : String) (a b : Int)
    (hmem : ("A Above B", d, s) ∈ existing)
    (hd : parseDriver d = some a) (hs : parseDriver s = some b)
    (hnd : parseDriver d1s = some b) (hns : parseDriver ss = some a) :
    conflicts existing "A Above B" d1s ss = true ∧
    updateStep existing ("A Above B", d1s, ss) = existing := by
  have hc : conflicts existing "A Above B" d1s ss = true := by
    apply conflicts_true_of_core_ne_some_false
    unfold conflictsCore
    rw [hnd]
    simp only [hns]
    norm_num
    exact loopRel_ne_some_false existing d s a b b a hmem hd hs ⟨rfl, rfl⟩
  exact ⟨hc, updateStep_of_conflict existing ("A Above B", d1s, ss) hc⟩

theorem relativeOrder_reverse_rejected_wit :
    parseDriver "1" = some 1 ∧ parseDriver "63" = some 63 ∧
    (conflicts [("A Above B", "1", "63")] "A Above B" "63" "1" = true ∧
      updateStep [("A Above B", "1", "63")] ("A Above B", "63", "1") =
        [("A Above B", "1", "63")]) :=
  ⟨by decide, by decide,
    relativeOrder_reverse_rejected [("A Above B", "1", "63")] "1" "63" "63" "1"
      1 63 (List.mem_singleton.mpr rfl) (by decide) (by decide) (by decide)
      (by decide)⟩

/-- C7: once FixedPosition(c0, p0) is among the accepted rows of an
event, any new FixedPosition that claims the same position or pins the
same competitor is detected as a conflict and not applied: the accepted
list (in particular, a singleton holding only the original row) is left
unchanged. -/
theorem fixedPosition_conflict_rejected
    (existing : List Scen) (d s d1s ss : String) (c0 p0 c1 p1 : Int)
    (hmem : ("Set Position", d, s) ∈ existing)
    (hd : parseDriver d = some c0) (hs : pyInt s = some p0)
    (hnd : parseDriver d1s = some c1) (hns : pyInt ss = some p1)
    (htrig : p1 = p0 ∨ c1 = c0) :
    conflicts existing "Set Position" d1s ss = true ∧
    updateStep existing ("Set Position", d1s, ss) = existing := by
  have hc : conflicts existing "Set Position" d1s ss = true := by
    apply conflicts_true_of_core_ne_some_false
    unfold conflictsCore
    rw [hnd]
    simp only [hns]
    norm_num
    apply loopSet_ne_some_false existing d s c0 p0 c1 p1 hmem hd hs
    rcases htrig with h | h
    · exact Or.inl h.symm
    · exact Or.inr h.symm
  exact ⟨hc, updateStep_of_conflict existing ("Set Position", d1s, ss) hc⟩

theorem fixedPosition_conflict_rejected_wit :
    pyInt "1" = some 1 ∧ parseDriver "2" = some 2 ∧
    (conflicts [("Set Position", "1", "1")] "Set Position" "2" "1" = true ∧
      updateStep [("Set Position", "1", "1")] ("Set Position", "2", "1") =
        [("Set Position", "1", "1")]) :=
  ⟨by decide, by decide,
    fixedPosition_conflict_rejected [("Set Position", "1", "1")] "1" "1" "2" "1"
      1 1 2 1 (List.mem_singleton.mpr rfl) (by decide) (by decide) (by decide)
      (by decide) (Or.inl rfl)⟩

/-- C9 counterexample: a row whose kind string is not one of the two
recognized kinds, with a second field that cannot be parsed as an int,
is not treated as a conflict (conflicts answers false) and is in fact
appended to the accepted list rather than rejected. -/
theorem conflicts_unparsed_row_not_flagged :
    pyInt "xyz" = none ∧ parseDriver "xyz" = none ∧
    conflicts [] "Whatever" "1" "xyz" = false ∧
    updateStep [] ("Whatever", "1", "xyz") = [("Whatever", "1", "xyz")] := by
  decide

/-- C9 (amended): conflicts is a total Boolean-valued check that never
propagates an exception; for a new row of either recognized kind a
parse failure of its fields is treated as a conflict — a failing driver
field yields a conflict for every kind — and a row reported as a
conflict is silently dropped (the accepted list is unchanged).  A row
of an unrecognized kind with parseable driver field is not flagged. -/
theorem conflicts_total_and_parse_failure_rejected
    (l : List Scen) (t d1s ss : String) :
    (parseDriver d1s = none ∨ (t = "Set Position" ∧ pyInt ss = none) ∨
        (t = "A Above B" ∧ parseDriver ss = none) →
      conflicts l t d1s ss = true) ∧
    (conflicts l t d1s ss = true → updateStep l (t, d1s, ss) = l) := by
  constructor
  · intro h
    unfold conflicts conflictsCore
    rcases h with h1 | ⟨ht, h2⟩ | ⟨ht, h2⟩
    · rw [h1]; rfl
    · subst ht
      cases hp : parseDriver d1s with
      | none => rfl
      | some d1 => simp [h2]
    · subst ht
      cases hp : parseDriver d1s with
      | none => rfl
      | some d1 => simp [h2]
  · intro h
    exact updateStep_of_conflict l (t, d1s, ss) h

/-! ## The order generator (src/gui_simulator.py, generate_order_with_constraints)

Randomness is an explicit oracle tape: sample i is the list returned by
the i-th random.sample(drivers, 20) call (the loop uses draw i on
attempt i, the fallback uses draw 1000), flip i is the i-th
random.random() < 0.5 test, and shuf i l is the result of the i-th
random.shuffle of l in the fallback.  random.sample raises ValueError
when the population has fewer than 20 elements; that uncaught exception
is the none result of the generator. -/

structure RTape where
  sample : Nat → List Int
  flip : Nat → Bool
  shuf : Nat → List Int → List Int

/-- Normalize a Python list index (negative indices count from the
end); none is an IndexError. -/
def pyIdx (n : Nat) (i : Int) : Option Nat :=
  if 0 ≤ i then (if i < (n : Int) then some i.toNat else none)
  else (if -(n : Int) ≤ i then some ((n : Int) + i).toNat else none)

/-- order[i], order[j] = order[j], order[i] -/
def swapIdx (l : List Int) (i j : Nat) : List Int :=
  (l.set i (l.getD j 0)).set j (l.getD i 0)

/-- Python list slice l[:z] (a negative stop counts from the end). -/
def pySlice (l : List Int) (z : Int) : List Int :=
  if 0 ≤ z then l.take z.toNat else l.take ((l.length : Int) + z).toNat

/-- The constraint loop of one generation attempt: Set Position rows
swap the named driver into the (0-based) slot, A Above B rows only
validate; a violated A Above B row sets valid = False and breaks (the
none result); a row that raises (parse failure or IndexError) is
skipped by the except/continue. -/
def applyCons (order : List Int) : List Scen → Option (List Int)
  | [] => some order
  | (t, d1s, ss) :: rest =>
    match parseDriver d1s with
    | none => applyCons order rest
    | some d1 =>
      if t = "Set Position" then
        match pyInt ss with
        | none => applyCons order rest
        | some second =>
          if d1 ∈ order ∧ second - 1 < 20 then
            match pyIdx order.length (second - 1) with
            | none => applyCons order rest
            | some j => applyCons (swapIdx order (order.indexOf d1) j) rest
          else applyCons order rest
      else if t = "A Above B" then
        match pyInt ss with
        | none => applyCons order rest
        | some d2 =>
          if d1 ∈ order ∧ d2 ∈ order then
            if order.indexOf d2 < order.indexOf d1 then none
            else applyCons order rest
          else applyCons order rest
      else applyCons order rest

/-- Python truthiness of the top5 default argument. -/
def isTruthy (t5 : Option (List Int)) : Bool :=
  match t5 with
  | none => false
  | some l => !l.isEmpty

/-- One attempt of the 1000-iteration loop: draw a sample, run the
constraint loop, and — when the bias subset is active and the coin
lands heads — also require all of top5 inside the first five slots. -/
def attemptGen (scn : List Scen) (t5 : Option (List Int)) (tape : RTape)
    (i : Nat) : Option (List Int) :=
  match applyCons (tape.sample i) scn with
  | none => none
  | some order =>
    if isTruthy t5 ∧ tape.flip i then
      if (t5.getD []).all (fun d => d ∈ order.take 5) then some order else none
    else some order

def genLoopAux (scn : List Scen) (t5 : Option (List Int)) (tape : RTape) :
    Nat → Nat → Option (List Int)
  | _, 0 => none
  | i, fuel + 1 =>
    match attemptGen scn t5 tape i with
    | some o => some o
    | none => genLoopAux scn t5 tape (i + 1) fuel

/-- The 1000-attempt retry loop; none means the budget was exhausted
and the fallback is taken. -/
def genLoop (scn : List Scen) (t5 : Option (List Int)) (tape : RTape) :
    Option (List Int) :=
  genLoopAux scn t5 tape 0 1000

/-- The fallback path after the budget is exhausted (top5_in is the
bias subset restricted to the roster, other the remaining roster). -/
def fallbackOrder (drivers : List Int) (t5 : Option (List Int))
    (tape : RTape) : List Int :=
  if isTruthy t5 ∧ tape.flip 1000 then
    tape.shuf 0 ((t5.getD []).filter (fun d => d ∈ drivers)) ++
      pySlice
        (tape.shuf 1 (drivers.filter
          (fun d => ¬ d ∈ (t5.getD []).filter (fun d2 => d2 ∈ drivers))))
        (20 - (((t5.getD []).filter (fun d => d ∈ drivers)).length : Int))
  else tape.sample 1000

def generate_order_with_constraints (drivers : List Int) (scn : List Scen)
    (t5 : Option (List Int)) (tape : RTape) : Option (List Int) :=
  if drivers.length < 20 then none
  else
    match genLoop scn t5 tape with
    | some o => some o
    | none => some (fallbackOrder drivers t5 tape)

/-- Well-formedness of one random.sample(drivers, 20) outcome. -/
def SampleOK (drivers l : List Int) : Prop :=
  l.length = 20 ∧ l.Nodup ∧ ∀ x ∈ l, x ∈ drivers

/-- Well-formedness of the whole oracle tape for a given roster. -/
def TapeOK (drivers : List Int) (tape : RTape) : Prop :=
  (∀ i, SampleOK drivers (tape.sample i)) ∧
  ∀ i l, List.Perm (tape.shuf i l) l

/-! ## Permutation facts about the generator -/

theorem sample_perm (drivers l : List Int) (hlen : drivers.length = 20)
    (h : SampleOK drivers l) :
    List.Perm l drivers := by
  obtain ⟨h1, h2, h3⟩ := h
  exact (List.subperm_of_subset h2 h3).perm_of_length_le (by rw [hlen, h1])

theorem cons_set_perm : ∀ (t : List Int) (k : Nat) (x : Int),
    k < t.length → List.Perm (t.getD k 0 :: t.set k x) (x :: t) := by
  intro t
  induction t with
  | nil => intro k x hk; cases hk
  | cons h t ih =>
    intro k x hk
    cases k with
    | zero => exact List.Perm.swap x h t
    | succ k =>
      exact ((List.Perm.swap h (t.getD k 0) (t.set k x)).trans
        ((ih k x (Nat.lt_of_succ_lt_succ hk)).cons h)).trans
        (List.Perm.swap x h t)

theorem swapIdx_perm : ∀ (l : List Int) (i j : Nat), i < l.length →
    j < l.length → List.Perm (swapIdx l i j) l := by
  intro l
  induction l with
  | nil => intro i j hi _; cases hi
  | cons h t ih =>
    intro i j hi hj
    cases i with
    | zero =>
      cases j with
      | zero => simp [swapIdx]
      | succ k =>
        exact cons_set_perm t k h (Nat.lt_of_succ_lt_succ hj)
    | succ m =>
      cases j with
      | zero => exact cons_set_perm t m h (Nat.lt_of_succ_lt_succ hi)
      | succ k =>
        exact (ih m k (Nat.lt_of_succ_lt_succ hi)
          (Nat.lt_of_succ_lt_succ hj)).cons h

theorem pyIdx_lt (n : Nat) (i : Int) (j : Nat) (h : pyIdx n i = some j) :
    j < n := by
  unfold pyIdx at h
  split_ifs at h <;> (try cases h) <;> omega

theorem applyCons_perm : ∀ (scn : List Scen) (order o : List Int),
    applyCons order scn = some o → List.Perm o order := by
  intro scn
  induction scn with
  | nil =>
    intro order o h
    injection h with h
    subst h
    exact List.Perm.refl order
  | cons c rest ih =>
    intro order o h
    obtain ⟨t, d1s, ss⟩ := c
    unfold applyCons at h
    cases hp : parseDriver d1s with
    | none => rw [hp] at h; exact ih order o h
    | some d1 =>
      simp only [hp] at h
      by_cases hts : t = "Set Position"
      · simp only [if_pos hts] at h
        cases hpy : pyInt ss with
        | none => rw [hpy] at h; exact ih order o h
        | some second =>
          simp only [hpy] at h
          by_cases hc : d1 ∈ order ∧ second - 1 < 20
          · simp only [if_pos hc] at h
            cases hidx : pyIdx order.length (second - 1) with
            | none => rw [hidx] at h; exact ih order o h
            | some j =>
              simp only [hidx] at h
              have hj : j < order.length := pyIdx_lt _ _ _ hidx
              have hi : order.indexOf d1 < order.length :=
                List.indexOf_lt_length.mpr hc.1
              exact (ih _ o h).trans (swapIdx_perm order _ j hi hj)
          · simp only [if_neg hc] at h; exact ih order o h
      · simp only [if_neg hts] at h
        by_cases hta : t = "A Above B"
        · simp only [if_pos hta] at h
          cases hpy : pyInt ss with
          | none => rw [hpy] at h; exact ih order o h
          | some d2 =>
            simp only [hpy] at h
            by_cases hc : d1 ∈ order ∧ d2 ∈ order
            · simp only [if_pos hc] at h
              by_cases hlt : order.indexOf d2 < order.indexOf d1
              · rw [if_pos hlt] at h; cases h
              · rw [if_neg hlt] at h; exact ih order o h
            · simp only [if_neg hc] at h; exact ih order o h
        · simp only [if_neg hta] at h; exact ih order o h

theorem perm_of_nodup_mem_iff (l1 l2 : List Int) (h1 : l1.Nodup)
    (h2 : l2.Nodup) (h : ∀ a, a ∈ l1 ↔ a ∈ l2) : List.Perm l1 l2 := by
  rw [List.perm_iff_count]
  intro a
  by_cases ha : a ∈ l1
  · rw [List.count_eq_one_of_mem h1 ha,
      List.count_eq_one_of_mem h2 ((h a).mp ha)]
  · rw [List.count_eq_zero_of_not_mem ha,
      List.count_eq_zero_of_not_mem (fun hx => ha ((h a).mpr hx))]

theorem fallback_perm (drivers : List Int) (t5 : Option (List Int))
    (tape : RTape) (hlen : drivers.length = 20) (hnd : drivers.Nodup)
    (htape : TapeOK drivers tape)
    (ht5 : ∀ l, t5 = some l → l.Nodup) :
    List.Perm (fallbackOrder drivers t5 tape) drivers := by
  unfold fallbackOrder
  by_cases hb : isTruthy t5 = true ∧ tape.flip 1000 = true
  · rw [if_pos hb]
    cases t5 with
    | none => cases hb.1
    | some l =>
      have hnd5 : l.Nodup := ht5 l rfl
      simp only [Option.getD_some]
      have hti : (l.filter (fun d => d ∈ drivers)).Nodup :=
        List.Nodup.filter _ hnd5
      have hp1 : List.Perm (tape.shuf 0 (l.filter (fun d => d ∈ drivers)))
          (l.filter (fun d => d ∈ drivers)) := htape.2 0 _
      have hp2 : List.Perm
          (tape.shuf 1 (drivers.filter
            (fun d => ¬ d ∈ l.filter (fun d2 => d2 ∈ drivers))))
          (drivers.filter
            (fun d => ¬ d ∈ l.filter (fun d2 => d2 ∈ drivers))) :=
        htape.2 1 _
      have hperm1 : List.Perm
          (drivers.filter (fun d => d ∈ l.filter (fun d2 => d2 ∈ drivers)))
          (l.filter (fun d => d ∈ drivers)) := by
        apply perm_of_nodup_mem_iff _ _ (List.Nodup.filter _ hnd) hti
        intro a
        simp only [List.mem_filter, decide_eq_true_eq]
        constructor
        · rintro ⟨hadr, hal, _⟩
          exact ⟨hal, hadr⟩
        · rintro ⟨hal, hadr⟩
          exact ⟨hadr, hal, hadr⟩
      have hneg : (fun d => decide (¬ d ∈ l.filter (fun d2 => d2 ∈ drivers)))
          = (fun d => !(decide (d ∈ l.filter (fun d2 => d2 ∈ drivers)))) := by
        funext d
        exact decide_not
      have hpermC : List.Perm
          ((l.filter (fun d => d ∈ drivers)) ++
            (drivers.filter
              (fun d => ¬ d ∈ l.filter (fun d2 => d2 ∈ drivers))))
          drivers := by
        refine List.Perm.trans ?_
          (List.filter_append_perm
            (fun d => d ∈ l.filter (fun d2 => d2 ∈ drivers)) drivers)
        refine List.Perm.append hperm1.symm ?_
        rw [hneg]
      have hlensum :
          (l.filter (fun d => d ∈ drivers)).length +
            (drivers.filter
              (fun d => ¬ d ∈ l.filter (fun d2 => d2 ∈ drivers))).length
            = 20 := by
        have := hpermC.length_eq
        rw [List.length_append] at this
        omega
      have htake : pySlice
          (tape.shuf 1 (drivers.filter
            (fun d => ¬ d ∈ l.filter (fun d2 => d2 ∈ drivers))))
          (20 - ((l.filter (fun d => d ∈ drivers)).length : Int)) =
          tape.shuf 1 (drivers.filter
            (fun d => ¬ d ∈ l.filter (fun d2 => d2 ∈ drivers))) := by
        have hlen2 := hp2.length_eq
        unfold pySlice
        rw [if_pos (by omega)]
        apply List.take_of_length_le
        omega
      rw [htake]
      exact (List.Perm.append hp1 hp2).trans hpermC
  · rw [if_neg hb]
    exact sample_perm drivers _ hlen (htape.1 1000)

theorem attemptGen_eq (scn : List Scen) (t5 : Option (List Int))
    (tape : RTape) (i : Nat) (o : List Int)
    (h : attemptGen scn t5 tape i = some o) :
    applyCons (tape.sample i) scn = some o := by
  unfold attemptGen at h
  cases ha : applyCons (tape.sample i) scn with
  | none => rw [ha] at h; cases h
  | some order =>
    simp only [ha] at h
    split_ifs at h <;> exact h

theorem genLoopAux_eq (scn : List Scen) (t5 : Option (List Int))
    (tape : RTape) : ∀ (fuel i : Nat) (o : List Int),
    genLoopAux scn t5 tape i fuel = some o →
    ∃ k, attemptGen scn t5 tape k = some o := by
  intro fuel
  induction fuel with
  | zero => intro i o h; cases h
  | succ n ih =>
    intro i o h
    unfold genLoopAux at h
    cases ha : attemptGen scn t5 tape i with
    | some hit => rw [ha] at h; injection h with h; exact ⟨i, by rw [ha, h]⟩
    | none => rw [ha] at h; exact ih (i + 1) o h

/-! ## Cell-level facts about swaps and indices -/

theorem pyIdx_of_range (n : Nat) (i : Int) (h0 : 0 ≤ i)
    (hn : i < (n : Int)) : pyIdx n i = some i.toNat := by
  unfold pyIdx
  rw [if_pos h0, if_pos hn]

theorem getD_set_ne (l : List Int) (i q : Nat) (v : Int) (h : i ≠ q) :
    (l.set i v).getD q 0 = l.getD q 0 := by
  rw [List.getD_eq_getElem?_getD, List.getD_eq_getElem?_getD,
    List.getElem?_set_ne h]

theorem getD_set_self (l : List Int) (j : Nat) (v : Int) (hj : j < l.length) :
    (l.set j v).getD j 0 = v := by
  rw [List.getD_eq_getElem?_getD, List.getElem?_set_self hj]
  rfl

theorem swapIdx_getD_other (l : List Int) (i j q : Nat) (hi : i ≠ q)
    (hj : j ≠ q) : (swapIdx l i j).getD q 0 = l.getD q 0 := by
  unfold swapIdx
  rw [getD_set_ne _ _ _ _ hj, getD_set_ne _ _ _ _ hi]

theorem swapIdx_getD_target (l : List Int) (i j : Nat) (hj : j < l.length) :
    (swapIdx l i j).getD j 0 = l.getD i 0 := by
  unfold swapIdx
  exact getD_set_self _ _ _ (by simpa using hj)

theorem getD_indexOf (l : List Int) (a : Int) (h : a ∈ l) :
    l.getD (l.indexOf a) 0 = a := by
  rw [List.getD_eq_getElem?_getD, List.getElem?_indexOf h]
  rfl

theorem indexOf_inj (l : List Int) (a b : Int) (ha : a ∈ l) (hb : b ∈ l)
    (h : l.indexOf a = l.indexOf b) : a = b := by
  have h1 := List.getElem?_indexOf ha
  have h2 := List.getElem?_indexOf hb
  rw [h, h2] at h1
  injection h1 with h1
  exact h1.symm

/-! ## Decomposition lemmas for the constraint loop of an attempt -/

theorem applyCons_append (l1 : List Scen) : ∀ (l2 : List Scen)
    (order : List Int),
    applyCons order (l1 ++ l2) =
      (applyCons order l1).bind (fun o1 => applyCons o1 l2) := by
  induction l1 with
  | nil => intro l2 order; rfl
  | cons c rest ih =>
    intro l2 order
    obtain ⟨t, d1s, ss⟩ := c
    show applyCons order ((t, d1s, ss) :: (rest ++ l2)) = _
    simp only [applyCons]
    cases hp : parseDriver d1s with
    | none => exact ih l2 order
    | some d1 =>
      by_cases hts : t = "Set Position"
      · simp only [if_pos hts]
        cases hpy : pyInt ss with
        | none => exact ih l2 order
        | some second =>
          by_cases hc : d1 ∈ order ∧ second - 1 < 20
          · simp only [if_pos hc]
            cases hidx : pyIdx order.length (second - 1) with
            | none => exact ih l2 order
            | some j => exact ih l2 _
          · simp only [if_neg hc]; exact ih l2 order
      · simp only [if_neg hts]
        by_cases hta : t = "A Above B"
        · simp only [if_pos hta]
          cases hpy : pyInt ss with
          | none => exact ih l2 order
          | some d2 =>
            by_cases hc : d1 ∈ order ∧ d2 ∈ order
            · simp only [if_pos hc]
              by_cases hlt : order.indexOf d2 < order.indexOf d1
              · simp only [if_pos hlt]; rfl
              · simp only [if_neg hlt]; exact ih l2 order
            · simp only [if_neg hc]; exact ih l2 order
        · simp only [if_neg hta]; exact ih l2 order

theorem applyCons_no_set (scn : List Scen)
    (hns : ∀ e ∈ scn, e.1 ≠ "Set Position") : ∀ (order o : List Int),
    applyCons order scn = some o → o = order := by
  induction scn with
  | nil => intro order o h; injection h with h; exact h.symm
  | cons c rest ih =>
    intro order o h
    obtain ⟨t, d1s, ss⟩ := c
    have hrest : ∀ e ∈ rest, e.1 ≠ "Set Position" :=
      fun e he => hns e (List.mem_cons_of_mem _ he)
    have hts : t ≠ "Set Position" := hns (t, d1s, ss) (List.mem_cons_self _ _)
    unfold applyCons at h
    cases hp : parseDriver d1s with
    | none => rw [hp] at h; exact ih hrest order o h
    | some d1 =>
      simp only [hp, if_neg hts] at h
      by_cases hta : t = "A Above B"
      · simp only [if_pos hta] at h
        cases hpy : pyInt ss with
        | none => rw [hpy] at h; exact ih hrest order o h
        | some d2 =>
          simp only [hpy] at h
          by_cases hc : d1 ∈ order ∧ d2 ∈ order
          · simp only [if_pos hc] at h
            by_cases hlt : order.indexOf d2 < order.indexOf d1
            · rw [if_pos hlt] at h; cases h
            · rw [if_neg hlt] at h; exact ih hrest order o h
          · simp only [if_neg hc] at h; exact ih hrest order o h
      · simp only [if_neg hta] at h; exact ih hrest order o h

/-! ## Invariants of accepted constraint lists and attempt validation -/

/-- The clash-freedom that conflicts enforces among accepted Set
Position rows: pairwise distinct drivers and distinct positions. -/
def SetPairwise (scn : List Scen) : Prop :=
  List.Pairwise (fun e1 e2 =>
    e1.1 = "Set Position" → e2.1 = "Set Position" →
    ∀ c1 p1 c2 p2, parseDriver e1.2.1 = some c1 → pyInt e1.2.2 = some p1 →
      parseDriver e2.2.1 = some c2 → pyInt e2.2.2 = some p2 →
      c1 ≠ c2 ∧ p1 ≠ p2) scn

/-- Every Set Position row asks for a position in 1..20 (the range the
GUI offers). -/
def SetInRange (scn : List Scen) : Prop :=
  ∀ e ∈ scn, e.1 = "Set Position" → ∀ p, pyInt e.2.2 = some p →
    1 ≤ p ∧ p ≤ 20

theorem swapIdx_length (l : List Int) (i j : Nat) :
    (swapIdx l i j).length = l.length := by
  simp [swapIdx]

/-- A cell whose position and driver no Set Position row of the list
targets survives the whole constraint loop. -/
theorem applyCons_keep (scn : List Scen) : ∀ (order o : List Int) (q : Nat)
    (c : Int),
    applyCons order scn = some o →
    order.length = 20 → order.getD q 0 = c →
    (∀ e ∈ scn, e.1 = "Set Position" → ∀ c2 p2,
      parseDriver e.2.1 = some c2 → pyInt e.2.2 = some p2 →
      1 ≤ p2 ∧ p2 ≤ 20 ∧ (p2 - 1).toNat ≠ q ∧ c2 ≠ c) →
    o.getD q 0 = c := by
  induction scn with
  | nil =>
    intro order o q c h _ hq _
    injection h with h
    rw [← h]
    exact hq
  | cons e0 rest ih =>
    intro order o q c h hlen hq hsafe
    obtain ⟨t, d1s, ss⟩ := e0
    have hrest : ∀ e ∈ rest, e.1 = "Set Position" → ∀ c2 p2,
        parseDriver e.2.1 = some c2 → pyInt e.2.2 = some p2 →
        1 ≤ p2 ∧ p2 ≤ 20 ∧ (p2 - 1).toNat ≠ q ∧ c2 ≠ c :=
      fun e he => hsafe e (List.mem_cons_of_mem _ he)
    unfold applyCons at h
    cases hp : parseDriver d1s with
    | none => rw [hp] at h; exact ih order o q c h hlen hq hrest
    | some d1 =>
      simp only [hp] at h
      by_cases hts : t = "Set Position"
      · simp only [if_pos hts] at h
        cases hpy : pyInt ss with
        | none => rw [hpy] at h; exact ih order o q c h hlen hq hrest
        | some second =>
          simp only [hpy] at h
          obtain ⟨hr1, hr2, hr3, hr4⟩ :=
            hsafe (t, d1s, ss) (List.mem_cons_self _ _) hts d1 second hp hpy
          by_cases hc : d1 ∈ order ∧ second - 1 < 20
          · simp only [if_pos hc] at h
            have hidx : pyIdx order.length (second - 1) =
                some (second - 1).toNat := by
              apply pyIdx_of_range
              · omega
              · rw [hlen]; omega
            rw [hidx] at h
            refine ih _ o q c h (by rw [swapIdx_length]; exact hlen) ?_ hrest
            rw [swapIdx_getD_other]
            · exact hq
            · intro heq
              have hd1 : order.getD (order.indexOf d1) 0 = d1 :=
                getD_indexOf order d1 hc.1
              rw [heq, hq] at hd1
              exact hr4 hd1.symm
            · exact hr3
          · simp only [if_neg hc] at h; exact ih order o q c h hlen hq hrest
      · simp only [if_neg hts] at h
        by_cases hta : t = "A Above B"
        · simp only [if_pos hta] at h
          cases hpy : pyInt ss with
          | none => rw [hpy] at h; exact ih order o q c h hlen hq hrest
          | some d2 =>
            simp only [hpy] at h
            by_cases hc : d1 ∈ order ∧ d2 ∈ order
            · simp only [if_pos hc] at h
              by_cases hlt : order.indexOf d2 < order.indexOf d1
              · rw [if_pos hlt] at h; cases h
              · rw [if_neg hlt] at h; exact ih order o q c h hlen hq hrest
            · simp only [if_neg hc] at h; exact ih order o q c h hlen hq hrest
        · simp only [if_neg hta] at h; exact ih order o q c h hlen hq hrest

/-- One step of the constraint loop: the remaining loop starts from some
permutation of the incoming order. -/
theorem applyCons_cons_inv (e0 : Scen) (rest : List Scen)
    (order o : List Int) (h : applyCons order (e0 :: rest) = some o) :
    ∃ order2, applyCons order2 rest = some o ∧ List.Perm order2 order := by
  obtain ⟨t, d1s, ss⟩ := e0
  unfold applyCons at h
  cases hp : parseDriver d1s with
  | none => rw [hp] at h; exact ⟨order, h, List.Perm.refl order⟩
  | some d1 =>
    simp only [hp] at h
    by_cases hts : t = "Set Position"
    · simp only [if_pos hts] at h
      cases hpy : pyInt ss with
      | none => rw [hpy] at h; exact ⟨order, h, List.Perm.refl order⟩
      | some second =>
        simp only [hpy] at h
        by_cases hc : d1 ∈ order ∧ second - 1 < 20
        · simp only [if_pos hc] at h
          cases hidx : pyIdx order.length (second - 1) with
          | none => rw [hidx] at h; exact ⟨order, h, List.Perm.refl order⟩
          | some j =>
            simp only [hidx] at h
            refine ⟨_, h, swapIdx_perm order _ j
              (List.indexOf_lt_length.mpr hc.1) (pyIdx_lt _ _ _ hidx)⟩
        · simp only [if_neg hc] at h; exact ⟨order, h, List.Perm.refl order⟩
    · simp only [if_neg hts] at h
      by_cases hta : t = "A Above B"
      · simp only [if_pos hta] at h
        cases hpy : pyInt ss with
        | none => rw [hpy] at h; exact ⟨order, h, List.Perm.refl order⟩
        | some d2 =>
          simp only [hpy] at h
          by_cases hc : d1 ∈ order ∧ d2 ∈ order
          · simp only [if_pos hc] at h
            by_cases hlt : order.indexOf d2 < order.indexOf d1
            · rw [if_pos hlt] at h; cases h
            · rw [if_neg hlt] at h; exact ⟨order, h, List.Perm.refl order⟩
          · simp only [if_neg hc] at h; exact ⟨order, h, List.Perm.refl order⟩
      · simp only [if_neg hta] at h; exact ⟨order, h, List.Perm.refl order⟩

/-- After a successful constraint loop, every Set Position row whose
position is in range and whose driver is in the order holds in the
final order, provided the Set rows are pairwise non-clashing. -/
theorem applyCons_sets_hold (scn : List Scen) : ∀ (order o : List Int),
    applyCons order scn = some o →
    order.length = 20 →
    SetPairwise scn → SetInRange scn →
    ∀ e ∈ scn, e.1 = "Set Position" → ∀ c p, parseDriver e.2.1 = some c →
      pyInt e.2.2 = some p → c ∈ order → o.getD (p - 1).toNat 0 = c := by
  induction scn with
  | nil =>
    intro order o _ _ _ _ e he
    cases he
  | cons e0 rest ih =>
    intro order o h hlen hpw hir e he hset c p hpc hpp hmem
    rcases List.mem_cons.mp he with heq | hin
    · obtain ⟨t, d1s, ss⟩ := e0
      subst heq
      have hts : t = "Set Position" := hset
      subst hts
      obtain ⟨hp1, hp2⟩ :=
        hir ("Set Position", d1s, ss) (List.mem_cons_self _ _) rfl p hpp
      unfold applyCons at h
      simp only [hpc, if_pos rfl, hpp] at h
      have hcnd : c ∈ order ∧ p - 1 < 20 := ⟨hmem, by omega⟩
      rw [if_pos hcnd] at h
      have hidx : pyIdx order.length (p - 1) = some (p - 1).toNat := by
        apply pyIdx_of_range
        · omega
        · rw [hlen]; omega
      simp only [hidx] at h
      have hstep : (swapIdx order (order.indexOf c) (p - 1).toNat).getD
          (p - 1).toNat 0 = c := by
        rw [swapIdx_getD_target]
        · exact getD_indexOf order c hmem
        · rw [hlen]; omega
      refine applyCons_keep rest _ o (p - 1).toNat c h
        (by rw [swapIdx_length]; exact hlen) hstep ?_
      intro e2 he2 hset2 c2 p2 hpc2 hpp2
      obtain ⟨hq1, hq2⟩ := hir e2 (List.mem_cons_of_mem _ he2) hset2 p2 hpp2
      have hrel := (List.pairwise_cons.mp hpw).1 e2 he2 rfl hset2
        c p c2 p2 hpc hpp hpc2 hpp2
      exact ⟨hq1, hq2, by omega, fun hcc => hrel.1 hcc.symm⟩
    · obtain ⟨order2, h2, hperm⟩ := applyCons_cons_inv e0 rest order o h
      exact ih order2 o h2 (by rw [hperm.length_eq]; exact hlen)
        (List.pairwise_cons.mp hpw).2
        (fun e2 he2 => hir e2 (List.mem_cons_of_mem _ he2))
        e hin hset c p hpc hpp ((hperm.mem_iff).mpr hmem)

/-- Completeness of the Set Position conflict loop: a false verdict
means every accepted Set Position row has a parseable position and
driver, both different from the new row. -/
theorem loopSet_false_sound (d1 pos : Int) : ∀ (existing : List Scen),
    loopSet existing d1 pos = some false →
    ∀ e ∈ existing, e.1 = "Set Position" → ∀ c2 p2,
      parseDriver e.2.1 = some c2 → pyInt e.2.2 = some p2 →
      p2 ≠ pos ∧ c2 ≠ d1 := by
  intro existing
  induction existing with
  | nil => intro _ e he; cases he
  | cons e0 rest ih =>
    intro h e he hset c2 p2 hc2 hp2
    obtain ⟨t, d, s⟩ := e0
    unfold loopSet at h
    rcases List.mem_cons.mp he with heq | hin
    · subst heq
      rw [if_pos hset] at h
      have hp2s : pyInt s = some p2 := hp2
      have hc2s : parseDriver d = some c2 := hc2
      simp only [hp2s, hc2s] at h
      by_cases hor : p2 = pos ∨ c2 = d1
      · rw [if_pos hor] at h; simp at h
      · push_neg at hor; exact hor
    · by_cases hts : t = "Set Position"
      · rw [if_pos hts] at h
        cases hpy : pyInt s with
        | none => simp only [hpy] at h; cases h
        | some p =>
          simp only [hpy] at h
          cases hpd : parseDriver d with
          | none => simp only [hpd] at h; cases h
          | some dd =>
            simp only [hpd] at h
            by_cases hor : p = pos ∨ dd = d1
            · rw [if_pos hor] at h; simp at h
            · rw [if_neg hor] at h
              exact ih h e hin hset c2 p2 hc2 hp2
      · rw [if_neg hts] at h
        exact ih h e hin hset c2 p2 hc2 hp2

/-- One update step keeps the accepted Set Position rows pairwise
non-clashing: a newly appended Set row passed conflicts, so it differs
from every accepted Set row in both driver and position. -/
theorem updateStep_setPairwise (acc : List Scen) (row : Scen)
    (h : SetPairwise acc) : SetPairwise (updateStep acc row) := by
  unfold updateStep
  split_ifs with hcond
  · unfold SetPairwise
    rw [List.pairwise_append]
    refine ⟨h, by simp, ?_⟩
    obtain ⟨t, d1s, ss⟩ := row
    intro e1 he1 e2 he2
    rw [List.mem_singleton] at he2
    subst he2
    intro hset1 hsetr c1 p1 c2 p2 hc1 hp1 hc2 hp2
    have hfalse : conflicts acc t d1s ss = false := hcond.2.2.2
    have hcore : conflictsCore acc t d1s ss = some false := by
      unfold conflicts at hfalse
      cases hcc : conflictsCore acc t d1s ss with
      | none => rw [hcc] at hfalse; cases hfalse
      | some b =>
        rw [hcc] at hfalse
        cases b with
        | false => rfl
        | true => cases hfalse
    have hsetr2 : t = "Set Position" := hsetr
    subst hsetr2
    have hc2s : parseDriver d1s = some c2 := hc2
    have hp2s : pyInt ss = some p2 := hp2
    unfold conflictsCore at hcore
    simp only [hc2s, if_pos rfl, hp2s] at hcore
    have hres := loopSet_false_sound c2 p2 acc hcore e1 he1 hset1 c1 p1
      hc1 hp1
    exact ⟨hres.2, hres.1⟩
  · exact h

/-- Accepted lists produced by update_scenarios are pairwise
non-clashing on their Set Position rows. -/
theorem updateList_setPairwise (rows : List Scen) :
    SetPairwise (updateList rows) := by
  unfold updateList
  have hstep : ∀ (rs : List Scen) (acc : List Scen), SetPairwise acc →
      SetPairwise (rs.foldl updateStep acc) := by
    intro rs
    induction rs with
    | nil => intro acc h; exact h
    | cons r rest ih =>
      intro acc h
      exact ih _ (updateStep_setPairwise acc r h)
  exact hstep rows [] List.Pairwise.nil

/-- Passing the validation of an A Above B row means the winner is not
behind the loser at that moment of the loop. -/
theorem applyCons_rel_head (ds ss : String) (rest : List Scen)
    (order o : List Int) (a b : Int)
    (h : applyCons order (("A Above B", ds, ss) :: rest) = some o)
    (hpa : parseDriver ds = some a) (hpb : pyInt ss = some b)
    (hma : a ∈ order) (hmb : b ∈ order) :
    applyCons order rest = some o ∧
    ¬ (order.indexOf b < order.indexOf a) := by
  unfold applyCons at h
  simp only [hpa] at h
  norm_num at h
  simp only [hpb] at h
  have hcnd : a ∈ order ∧ b ∈ order := ⟨hma, hmb⟩
  rw [if_pos hcnd] at h
  by_cases hlt : order.indexOf b < order.indexOf a
  · rw [if_pos hlt] at h; cases h
  · rw [if_neg hlt] at h; exact ⟨h, hlt⟩

/-! ## Claim C1 -/

/-- The literal roster of src/gui_simulator.py (drivers = sorted([...])). -/
def drivers20 : List Int :=
  [1, 4, 5, 6, 10, 12, 14, 16, 18, 22, 23, 27, 30, 31, 43, 44, 55, 63, 81, 87]

/-- A 21-competitor roster used to refute the unrestricted claim. -/
def roster21 : List Int :=
  [1, 2, 3, 4, 5, 6, 7, 8, 9, 10, 11, 12, 13, 14, 15, 16, 17, 18, 19, 20, 21]

/-- A concrete tape whose every sample draw is the first 20 elements of
roster21 (a legal random.sample(roster21, 20) outcome). -/
def tape21 : RTape := ⟨fun _ => roster21.take 20, fun _ => false, fun _ l => l⟩

/-- C1 counterexample: on a 21-competitor roster the generator returns a
20-element list, so the result omits a competitor and is not a
permutation of the input roster (random.sample(drivers, 20) draws
exactly 20 regardless of the roster size). -/
theorem generate_order_not_perm_on_roster21 :
    generate_order_with_constraints roster21 [] none tape21 =
      some (roster21.take 20) ∧
    ¬ List.Perm (roster21.take 20) roster21 := by
  constructor
  · rfl
  · intro h
    have := h.length_eq
    simp [roster21] at this

/-- On a 20-competitor roster the generator always succeeds and returns
a permutation of the roster (shared workhorse behind the round-trip
claim and the simulator proofs). -/
theorem generate_ok
    (drivers : List Int) (scn : List Scen) (t5 : Option (List Int))
    (tape : RTape) (hlen : drivers.length = 20) (hnd : drivers.Nodup)
    (htape : TapeOK drivers tape)
    (ht5 : ∀ l, t5 = some l → l.Nodup) :
    ∃ o, generate_order_with_constraints drivers scn t5 tape = some o ∧
      List.Perm o drivers := by
  unfold generate_order_with_constraints
  rw [if_neg (by omega : ¬ drivers.length < 20)]
  cases hg : genLoop scn t5 tape with
  | some o =>
    refine ⟨o, rfl, ?_⟩
    obtain ⟨k, hk⟩ := genLoopAux_eq scn t5 tape 1000 0 o hg
    exact (applyCons_perm scn _ o (attemptGen_eq scn t5 tape k o hk)).trans
      (sample_perm drivers _ hlen (htape.1 k))
  | none => exact ⟨_, rfl, fallback_perm drivers t5 tape hlen hnd htape ht5⟩

/-- C1 (amended): for a roster of exactly 20 distinct competitors and a
duplicate-free bias subset, every call of the order generator — any
constraint list, bias active or not, constraint-satisfying or fallback
path, for every randomness tape — returns an order that is a permutation
of the exact input roster. -/
theorem generate_order_perm_of_roster20
    (drivers : List Int) (scn : List Scen) (t5 : Option (List Int))
    (tape : RTape) (hlen : drivers.length = 20) (hnd : drivers.Nodup)
    (htape : TapeOK drivers tape)
    (ht5 : ∀ l, t5 = some l → l.Nodup) :
    ∃ o, generate_order_with_constraints drivers scn t5 tape = some o ∧
      List.Perm o drivers :=
  generate_ok drivers scn t5 tape hlen hnd htape ht5

/-- A trivial valid tape over the program roster. -/
def tape20 : RTape := ⟨fun _ => drivers20, fun _ => false, fun _ l => l⟩

/-! ## Claim C2 -/

/-- An accepted pair of rows: first RelativeOrder(1, 63), then
FixedPosition(63, 1); conflicts accepts both (a new Set Position row is
never checked against accepted A Above B rows). -/
def rowsC2 : List Scen := [("A Above B", "1", "63"), ("Set Position", "63", "1")]

/-- drivers20 after the swap that FixedPosition(63, 1) performs. -/
def ordC2 : List Int :=
  [63, 4, 5, 6, 10, 12, 14, 16, 18, 22, 23, 27, 30, 31, 43, 44, 55, 1, 81, 87]

/-- C2 counterexample: the constraint loop applies rows sequentially,
so the later accepted FixedPosition(63, 1) swaps 63 to the front after
RelativeOrder(1, 63) was already validated.  The generator returns on
its very first attempt — far inside the 1000-attempt budget — an order
that puts 63 ahead of 1, violating the accepted RelativeOrder(1, 63). -/
theorem genLoop_rel_violated_within_budget :
    updateList rowsC2 = rowsC2 ∧
    genLoop rowsC2 none tape20 = some ordC2 ∧
    parseDriver "1" = some 1 ∧ pyInt "63" = some 63 ∧
    ordC2.indexOf 63 < ordC2.indexOf 1 := by
  refine ⟨by decide, by decide, by decide, by decide, by decide⟩

/-- C2 (amended): when the generator returns within its retry budget,
every accepted FixedPosition(c, p) with c in the roster and p in 1..20
holds in the returned order; an accepted RelativeOrder(a, b) between
distinct roster members is guaranteed only when no FixedPosition row
appears after it in the accepted list — a later FixedPosition swap can
reorder the pair (see the counterexample). -/
theorem genLoop_accepted_constraints
    (drivers : List Int) (rows : List Scen) (t5 : Option (List Int))
    (tape : RTape) (o : List Int)
    (hlen : drivers.length = 20)
    (htape : TapeOK drivers tape)
    (hrange : SetInRange (updateList rows))
    (hgen : genLoop (updateList rows) t5 tape = some o) :
    (∀ e ∈ updateList rows, e.1 = "Set Position" → ∀ c p,
        parseDriver e.2.1 = some c → pyInt e.2.2 = some p → c ∈ drivers →
        o.getD (p - 1).toNat 0 = c) ∧
    (∀ pre ds ss post a b,
        updateList rows = pre ++ ("A Above B", ds, ss) :: post →
        parseDriver ds = some a → pyInt ss = some b → a ∈ drivers →
        b ∈ drivers → a ≠ b →
        (∀ e2 ∈ post, e2.1 ≠ "Set Position") →
        o.indexOf a < o.indexOf b) := by
  obtain ⟨k, hk⟩ := genLoopAux_eq _ t5 tape 1000 0 o hgen
  have happ : applyCons (tape.sample k) (updateList rows) = some o :=
    attemptGen_eq _ _ _ _ _ hk
  have hsok := htape.1 k
  have hperm : List.Perm (tape.sample k) drivers :=
    sample_perm drivers _ hlen hsok
  constructor
  · intro e he hset c p hpc hpp hcd
    exact applyCons_sets_hold _ _ o happ hsok.1
      (updateList_setPairwise rows) hrange e he hset c p hpc hpp
      (hperm.mem_iff.mpr hcd)
  · intro pre ds ss post a b hdec hpa hpb hma hmb hab hpost
    rw [hdec] at happ
    rw [applyCons_append] at happ
    cases h1 : applyCons (tape.sample k) pre with
    | none => rw [h1] at happ; cases happ
    | some o1 =>
      rw [h1] at happ
      have happ2 : applyCons o1 (("A Above B", ds, ss) :: post) = some o :=
        happ
      have hpermo1 : List.Perm o1 (tape.sample k) :=
        applyCons_perm pre _ o1 h1
      have ha1 : a ∈ o1 := hpermo1.mem_iff.mpr (hperm.mem_iff.mpr hma)
      have hb1 : b ∈ o1 := hpermo1.mem_iff.mpr (hperm.mem_iff.mpr hmb)
      obtain ⟨happ3, hnlt⟩ :=
        applyCons_rel_head ds ss post o1 o a b happ2 hpa hpb ha1 hb1
      have hoeq : o = o1 := applyCons_no_set post hpost o1 o happ3
      subst hoeq
      have hne : o.indexOf a ≠ o.indexOf b :=
        fun hEq => hab (indexOf_inj o a b ha1 hb1 hEq)
      omega

theorem genLoop_accepted_constraints_wit :
    updateList [("Set Position", "1", "3"), ("A Above B", "55", "63")] =
      [("Set Position", "1", "3"), ("A Above B", "55", "63")] ∧
    SetInRange (updateList
      [("Set Position", "1", "3"), ("A Above B", "55", "63")]) ∧
    (∃ o, genLoop (updateList
        [("Set Position", "1", "3"), ("A Above B", "55", "63")])
        none tape20 = some o ∧
      o.getD 2 0 = 1 ∧ o.indexOf 55 < o.indexOf 63) := by
  have hup : updateList [("Set Position", "1", "3"), ("A Above B", "55", "63")]
      = [("Set Position", "1", "3"), ("A Above B", "55", "63")] := by decide
  have hrange : SetInRange (updateList
      [("Set Position", "1", "3"), ("A Above B", "55", "63")]) := by
    rw [hup]
    intro e he hset p hp
    rcases List.mem_cons.mp he with heq | hin
    · subst heq
      have : pyInt "3" = some p := hp
      have h3 : pyInt "3" = some 3 := by decide
      rw [h3] at this
      injection this with this
      omega
    · rw [List.mem_singleton] at hin
      subst hin
      exact absurd hset (by decide)
  have hgen : genLoop (updateList
      [("Set Position", "1", "3"), ("A Above B", "55", "63")]) none tape20 =
      some [5, 4, 1, 6, 10, 12, 14, 16, 18, 22, 23, 27,
        30, 31, 43, 44, 55, 63, 81, 87] := by decide
  have htape : TapeOK drivers20 tape20 :=
    ⟨fun _ => (⟨by decide, by decide, by decide⟩ :
      SampleOK drivers20 drivers20), fun _ l => List.Perm.refl l⟩
  obtain ⟨hfix, hrel⟩ := genLoop_accepted_constraints drivers20
    [("Set Position", "1", "3"), ("A Above B", "55", "63")] none tape20
    [5, 4, 1, 6, 10, 12, 14, 16, 18, 22, 23, 27, 30, 31, 43, 44, 55, 63,
      81, 87] (by decide) htape hrange hgen
  refine ⟨hup, hrange, ⟨_, hgen, ?_, ?_⟩⟩
  · have := hfix ("Set Position", "1", "3") (by rw [hup]; decide) rfl 1 3
      (by decide) (by decide) (by decide)
    exact this
  · exact hrel [("Set Position", "1", "3")] "55" "63" [] 55 63
      (by rw [hup]; rfl) (by decide) (by decide) (by decide) (by decide)
      (by decide) (fun e2 he2 => nomatch he2)

theorem generate_order_perm_of_roster20_wit :
    drivers20.length = 20 ∧ drivers20.Nodup ∧ TapeOK drivers20 tape20 ∧
    (∃ o, generate_order_with_constraints drivers20 [] none tape20 = some o ∧
      List.Perm o drivers20) :=
  ⟨by decide, by decide,
    ⟨fun _ => (⟨by decide, by decide, by decide⟩ :
        SampleOK drivers20 drivers20),
      fun _ l => List.Perm.refl l⟩,
    generate_order_perm_of_roster20 drivers20 [] none tape20 (by decide)
      (by decide)
      ⟨fun _ => (⟨by decide, by decide, by decide⟩ :
          SampleOK drivers20 drivers20),
        fun _ l => List.Perm.refl l⟩
      (fun l h => nomatch h)⟩

theorem conflicts_total_and_parse_failure_rejected_wit :
    pyInt "zz" = none ∧
    conflicts [] "Set Position" "5" "zz" = true ∧
    updateStep [] ("Set Position", "5", "zz") = [] :=
  ⟨by decide,
    (conflicts_total_and_parse_failure_rejected [] "Set Position" "5" "zz").1
      (Or.inr (Or.inl ⟨rfl, by decide⟩)),
    (conflicts_total_and_parse_failure_rejected [] "Set Position" "5" "zz").2
      ((conflicts_total_and_parse_failure_rejected [] "Set Position" "5" "zz").1
        (Or.inr (Or.inl ⟨rfl, by decide⟩)))⟩

/-! ## The standings accumulator (src/Total_points.py)

Python dicts from driver number to points become insertion-ordered
association lists; session results are an abstract environment: what
get_sessions(year) and session_result(key, n) deliver from the cached
API payloads. -/

abbrev PMap := List (Int × Int)

def lookupP (m : PMap) (d : Int) : Option Int :=
  match m with
  | [] => none
  | kv :: rest => if kv.1 = d then some kv.2 else lookupP rest d

def lookupD (m : PMap) (d : Int) : Int := (lookupP m d).getD 0

/-- Overwrite the first entry carrying the given key. -/
def setKey (m : PMap) (d v : Int) : PMap :=
  match m with
  | [] => []
  | kv :: rest => if kv.1 = d then (d, v) :: rest else kv :: setKey rest d v

/-- dp[dn] += points when the key exists, else dp[dn] = points (a new
key is appended, as Python dict insertion order does). -/
def bumpOrInsert (m : PMap) (d p : Int) : PMap :=
  match lookupP m d with
  | some v => setKey m d (v + p)
  | none => m ++ [(d, p)]

/-- The per-year session environment: raceKeys and sprintKeys are what
get_sessions(year) returns, and results key n is the result list of
session key fetched with position cutoff n, as (driver_number, points)
rows. -/
structure SessEnv where
  raceKeys : List (Int × String)
  sprintKeys : List (Int × String)
  results : Int → Nat → List (Int × Int)

/-- add_points(session_keys, n, driver_points). -/
def add_points (env : SessEnv) (sessionKeys : List (Int × String)) (n : Nat)
    (dp : PMap) : PMap :=
  sessionKeys.foldl (fun m kc =>
    (env.results kc.1 n).foldl (fun m2 r => bumpOrInsert m2 r.1 r.2) m) dp

/-- One race week of get_points_after_race_week: the race at index i
with cutoff 10, then the first sprint session of the same country with
cutoff 8, if one exists. -/
def weekStep (env : SessEnv) (dp : PMap) (i : Nat) : PMap :=
  match env.raceKeys.get? i with
  | none => dp
  | some kc =>
    match env.sprintKeys.find? (fun p => p.2 = kc.2) with
    | some sk => add_points env [(sk.1, kc.2)] 8 (add_points env [kc] 10 dp)
    | none => add_points env [kc] 10 dp

/-- The from-scratch body of get_points_after_race_week(k): fold the
first min(k, number of races) race weeks starting from the empty dict. -/
def get_points_pure (env : SessEnv) (k : Nat) : PMap :=
  (List.range (min k env.raceKeys.length)).foldl (weekStep env) []

/-! ## Pointwise lookup facts used for monotonicity -/

theorem lookupP_append_single (m : PMap) (dn p d : Int) :
    lookupP (m ++ [(dn, p)]) d =
      match lookupP m d with
      | some v => some v
      | none => if d = dn then some p else none := by
  induction m with
  | nil =>
    show (if dn = d then some p else none) = if d = dn then some p else none
    by_cases h : d = dn
    · rw [if_pos (h.symm), if_pos h]
    · rw [if_neg (fun hh => h hh.symm), if_neg h]
  | cons kv rest ih =>
    show (if kv.1 = d then some kv.2 else lookupP (rest ++ [(dn, p)]) d) = _
    by_cases h : kv.1 = d
    · rw [if_pos h]
      show _ = (match (if kv.1 = d then some kv.2 else lookupP rest d) with
        | some v => some v
        | none => if d = dn then some p else none)
      rw [if_pos h]
    · rw [if_neg h, ih]
      show _ = (match (if kv.1 = d then some kv.2 else lookupP rest d) with
        | some v => some v
        | none => if d = dn then some p else none)
      rw [if_neg h]

theorem lookupP_setKey_self (dn w v : Int) : ∀ (m : PMap),
    lookupP m dn = some v → lookupP (setKey m dn w) dn = some w := by
  intro m
  induction m with
  | nil => intro h; cases h
  | cons kv rest ih =>
    intro h
    by_cases hk : kv.1 = dn
    · show lookupP (if kv.1 = dn then (dn, w) :: rest else _) dn = some w
      rw [if_pos hk]
      show (if dn = dn then some w else lookupP rest dn) = some w
      rw [if_pos rfl]
    · show lookupP (if kv.1 = dn then _ else kv :: setKey rest dn w) dn = _
      rw [if_neg hk]
      show (if kv.1 = dn then some kv.2 else lookupP (setKey rest dn w) dn) = _
      rw [if_neg hk]
      apply ih
      have h2 : lookupP (kv :: rest) dn = lookupP rest dn := by
        show (if kv.1 = dn then some kv.2 else lookupP rest dn) = _
        rw [if_neg hk]
      rw [← h2]
      exact h

theorem lookupP_setKey_ne (dn w d : Int) (hd : d ≠ dn) : ∀ (m : PMap),
    lookupP (setKey m dn w) d = lookupP m d := by
  intro m
  induction m with
  | nil => rfl
  | cons kv rest ih =>
    by_cases hk : kv.1 = dn
    · show lookupP (if kv.1 = dn then (dn, w) :: rest else _) d = _
      rw [if_pos hk]
      show (if dn = d then some w else lookupP rest d) = _
      rw [if_neg (fun hh => hd hh.symm)]
      show _ = (if kv.1 = d then some kv.2 else lookupP rest d)
      rw [if_neg (by rw [hk]; exact fun hh => hd hh.symm)]
    · show lookupP (if kv.1 = dn then _ else kv :: setKey rest dn w) d = _
      rw [if_neg hk]
      show (if kv.1 = d then some kv.2 else lookupP (setKey rest dn w) d) = _
      by_cases h2 : kv.1 = d
      · rw [if_pos h2]
        show _ = (if kv.1 = d then some kv.2 else lookupP rest d)
        rw [if_pos h2]
      · rw [if_neg h2, ih]
        show _ = (if kv.1 = d then some kv.2 else lookupP rest d)
        rw [if_neg h2]

theorem lookupD_bumpOrInsert (m : PMap) (dn p d : Int) :
    lookupD (bumpOrInsert m dn p) d =
      if d = dn then lookupD m d + p else lookupD m d := by
  unfold bumpOrInsert
  cases hl : lookupP m dn with
  | some v =>
    by_cases hd : d = dn
    · subst hd
      rw [if_pos rfl]
      unfold lookupD
      rw [lookupP_setKey_self d (v + p) v m hl, hl]
      rfl
    · rw [if_neg hd]
      unfold lookupD
      rw [lookupP_setKey_ne dn (v + p) d hd m]
  | none =>
    unfold lookupD
    rw [lookupP_append_single]
    by_cases hd : d = dn
    · subst hd
      rw [hl]
      simp
    · cases h2 : lookupP m d <;> simp [h2, hd]

/-- Non-negative payout data: every result row of every session awards
a non-negative number of points. -/
def EnvNonneg (env : SessEnv) : Prop :=
  ∀ key n r, r ∈ env.results key n → 0 ≤ r.2

theorem lookupD_bump_mono (m : PMap) (dn p d : Int) (hp : 0 ≤ p) :
    lookupD m d ≤ lookupD (bumpOrInsert m dn p) d := by
  rw [lookupD_bumpOrInsert]
  by_cases hd : d = dn
  · rw [if_pos hd]; omega
  · rw [if_neg hd]

theorem results_fold_mono (rs : List (Int × Int))
    (hp : ∀ r ∈ rs, 0 ≤ r.2) : ∀ (m : PMap) (d : Int),
    lookupD m d ≤
      lookupD (rs.foldl (fun m2 r => bumpOrInsert m2 r.1 r.2) m) d := by
  induction rs with
  | nil => intro m d; exact le_refl _
  | cons r rest ih =>
    intro m d
    exact le_trans (lookupD_bump_mono m r.1 r.2 d
        (hp r (List.mem_cons_self _ _)))
      (ih (fun r2 hr2 => hp r2 (List.mem_cons_of_mem _ hr2))
        (bumpOrInsert m r.1 r.2) d)

theorem add_points_mono (env : SessEnv) (hp : EnvNonneg env)
    (keys : List (Int × String)) (n : Nat) : ∀ (m : PMap) (d : Int),
    lookupD m d ≤ lookupD (add_points env keys n m) d := by
  induction keys with
  | nil => intro m d; exact le_refl _
  | cons kc rest ih =>
    intro m d
    exact le_trans
      (results_fold_mono (env.results kc.1 n) (fun r hr => hp kc.1 n r hr)
        m d)
      (ih _ d)

theorem weekStep_mono (env : SessEnv) (hp : EnvNonneg env) (i : Nat)
    (m : PMap) (d : Int) : lookupD m d ≤ lookupD (weekStep env m i) d := by
  unfold weekStep
  split
  · exact le_refl _
  · next kc heq =>
    split
    · next sk heq2 =>
      exact le_trans (add_points_mono env hp [kc] 10 m d)
        (add_points_mono env hp [(sk.1, kc.2)] 8 _ d)
    · exact add_points_mono env hp [kc] 10 m d

theorem get_points_pure_mono_succ (env : SessEnv) (hp : EnvNonneg env)
    (k : Nat) (d : Int) :
    lookupD (get_points_pure env k) d ≤
      lookupD (get_points_pure env (k + 1)) d := by
  by_cases hk : k < env.raceKeys.length
  · have h1 : min (k + 1) env.raceKeys.length = min k env.raceKeys.length + 1 := by
      omega
    unfold get_points_pure
    rw [h1, List.range_succ, List.foldl_append]
    have h2 : min k env.raceKeys.length = k := by omega
    rw [h2]
    exact weekStep_mono env hp k _ d
  · have h1 : min (k + 1) env.raceKeys.length = min k env.raceKeys.length := by
      omega
    unfold get_points_pure
    rw [h1]

/-- C4: cumulative standings never decrease along the event sequence —
for prefixes k1 ≤ k2 and every competitor, the total after k2 race
weeks is at least the total after k1, whenever every points entry in
the session results is non-negative. -/
theorem standings_monotone (env : SessEnv) (k1 k2 : Nat) (hk : k1 ≤ k2)
    (hp : EnvNonneg env) (d : Int) :
    lookupD (get_points_pure env k1) d ≤ lookupD (get_points_pure env k2) d := by
  induction k2 with
  | zero =>
    have : k1 = 0 := by omega
    subst this
    exact le_refl _
  | succ n ih =>
    by_cases hle : k1 ≤ n
    · exact le_trans (ih hle) (get_points_pure_mono_succ env hp n d)
    · have : k1 = n + 1 := by omega
      subst this
      exact le_refl _

/-- A one-race environment used to instantiate the standings claims. -/
def env0 : SessEnv :=
  ⟨[(9001, "Australia")], [], fun _ _ => [(44, 25), (81, 18)]⟩

theorem standings_monotone_wit :
    (0 : Nat) ≤ 1 ∧ EnvNonneg env0 ∧
    lookupD (get_points_pure env0 0) 44 ≤ lookupD (get_points_pure env0 1) 44 := by
  have hp : EnvNonneg env0 := by
    intro key n r hr
    rcases List.mem_cons.mp hr with h | h
    · rw [h]; decide
    · rw [List.mem_singleton.mp h]; decide
  exact ⟨by decide, hp, standings_monotone env0 0 1 (by decide) hp 44⟩

/-! ## The checkpoint cache as an explicit heap

get_points_after_race_week keeps cache_points, a process-wide dict from
(k, year) to a points dict.  Python reference semantics are made
explicit with a heap from addresses to dict contents: the cache stores
an address, a .copy() allocates a fresh address with the same contents,
and ret records every address ever handed back to the caller, which is
exactly what a caller may later mutate. -/

structure CacheSt where
  heap : Nat → PMap
  cacheAddr : Nat × Nat → Option Nat
  fresh : Nat
  ret : List Nat

def heapWrite (h : Nat → PMap) (a : Nat) (v : PMap) : Nat → PMap :=
  fun x => if x = a then v else h x

def cacheWrite (c : Nat × Nat → Option Nat) (key : Nat × Nat) (a : Nat) :
    Nat × Nat → Option Nat :=
  fun x => if x = key then some a else c x

/-- get_points_after_race_week(k, year): on a cache hit return a copy
of the cached dict (a fresh address with the cached contents); on a
miss run the from-scratch loop into a fresh dict, store a copy of it in
the cache, and return the original dict. -/
def get_points_state (envY : Nat → SessEnv) (k year : Nat) (σ : CacheSt) :
    Nat × CacheSt :=
  match σ.cacheAddr (k, year) with
  | some a =>
    (σ.fresh,
      ⟨heapWrite σ.heap σ.fresh (σ.heap a), σ.cacheAddr, σ.fresh + 1,
        σ.fresh :: σ.ret⟩)
  | none =>
    (σ.fresh,
      ⟨heapWrite (heapWrite σ.heap σ.fresh (get_points_pure (envY year) k))
          (σ.fresh + 1) (get_points_pure (envY year) k),
        cacheWrite σ.cacheAddr (k, year) (σ.fresh + 1), σ.fresh + 2,
        σ.fresh :: σ.ret⟩)

/-- What a caller can do between calls: query again, or mutate a dict
it was previously handed (the i-th returned address). -/
inductive CacheOp where
  | get (k year : Nat)
  | mutate (i : Nat) (v : PMap)

def runOp (envY : Nat → SessEnv) (σ : CacheSt) (op : CacheOp) : CacheSt :=
  match op with
  | .get k year => (get_points_state envY k year σ).2
  | .mutate i v =>
    match σ.ret.get? i with
    | some a => ⟨heapWrite σ.heap a v, σ.cacheAddr, σ.fresh, σ.ret⟩
    | none => σ

def runOps (envY : Nat → SessEnv) (ops : List CacheOp) (σ : CacheSt) :
    CacheSt :=
  ops.foldl (runOp envY) σ

def initCache : CacheSt := ⟨fun _ => [], fun _ => none, 0, []⟩

/-- The no-aliasing invariant: every cached address holds exactly the
from-scratch value of its key, lies below the allocation frontier, and
was never handed to the caller. -/
def CacheInv (envY : Nat → SessEnv) (σ : CacheSt) : Prop :=
  (∀ key a, σ.cacheAddr key = some a →
    σ.heap a = get_points_pure (envY key.2) key.1 ∧ a < σ.fresh ∧
      a ∉ σ.ret) ∧
  (∀ a ∈ σ.ret, a < σ.fresh)

theorem cacheInv_init (envY : Nat → SessEnv) : CacheInv envY initCache := by
  constructor
  · intro key a h
    cases h
  · intro a h
    cases h

theorem cacheInv_get (envY : Nat → SessEnv) (k year : Nat) (σ : CacheSt)
    (h : CacheInv envY σ) :
    CacheInv envY (get_points_state envY k year σ).2 ∧
    (get_points_state envY k year σ).2.heap
      (get_points_state envY k year σ).1 = get_points_pure (envY year) k ∧
    ∀ key, (get_points_state envY k year σ).2.cacheAddr key ≠
      some (get_points_state envY k year σ).1 := by
  obtain ⟨hcache, hret⟩ := h
  cases hhit : σ.cacheAddr (k, year) with
  | some a =>
    have hgs : get_points_state envY k year σ =
        (σ.fresh, ⟨heapWrite σ.heap σ.fresh (σ.heap a), σ.cacheAddr,
          σ.fresh + 1, σ.fresh :: σ.ret⟩) := by
      unfold get_points_state
      rw [hhit]
    rw [hgs]
    unfold CacheInv heapWrite
    dsimp only
    obtain ⟨hval, hlt, hnr⟩ := hcache (k, year) a hhit
    refine ⟨⟨?_, ?_⟩, ?_, ?_⟩
    · intro key b hb
      obtain ⟨hv2, hl2, hn2⟩ := hcache key b hb
      refine ⟨?_, by omega, ?_⟩
      · rw [if_neg (by omega)]
        exact hv2
      · intro hmem
        rcases List.mem_cons.mp hmem with hb2 | hb2
        · omega
        · exact hn2 hb2
    · intro b hb
      rcases List.mem_cons.mp hb with hb2 | hb2
      · omega
      · have := hret b hb2; omega
    · rw [if_pos rfl]
      exact hval
    · intro key hkey
      obtain ⟨_, hl2, _⟩ := hcache key σ.fresh hkey
      omega
  | none =>
    have hgs : get_points_state envY k year σ =
        (σ.fresh,
          ⟨heapWrite (heapWrite σ.heap σ.fresh (get_points_pure (envY year) k))
              (σ.fresh + 1) (get_points_pure (envY year) k),
            cacheWrite σ.cacheAddr (k, year) (σ.fresh + 1), σ.fresh + 2,
            σ.fresh :: σ.ret⟩) := by
      unfold get_points_state
      rw [hhit]
    rw [hgs]
    unfold CacheInv heapWrite cacheWrite
    dsimp only
    refine ⟨⟨?_, ?_⟩, ?_, ?_⟩
    · intro key b hb
      by_cases hk2 : key = (k, year)
      · rw [if_pos hk2] at hb
        injection hb with hb
        subst hb
        refine ⟨?_, by omega, ?_⟩
        · rw [if_pos rfl, hk2]
        · intro hmem
          rcases List.mem_cons.mp hmem with hb2 | hb2
          · omega
          · have := hret _ hb2; omega
      · rw [if_neg hk2] at hb
        obtain ⟨hv2, hl2, hn2⟩ := hcache key b hb
        refine ⟨?_, by omega, ?_⟩
        · rw [if_neg (by omega), if_neg (by omega)]
          exact hv2
        · intro hmem
          rcases List.mem_cons.mp hmem with hb2 | hb2
          · omega
          · exact hn2 hb2
    · intro b hb
      rcases List.mem_cons.mp hb with hb2 | hb2
      · omega
      · have := hret b hb2; omega
    · rw [if_neg (by omega), if_pos rfl]
    · intro key hkey
      by_cases hk2 : key = (k, year)
      · rw [if_pos hk2] at hkey
        injection hkey with hkey
        omega
      · rw [if_neg hk2] at hkey
        obtain ⟨_, hl2, _⟩ := hcache key σ.fresh hkey
        omega

theorem cacheInv_runOp (envY : Nat → SessEnv) (σ : CacheSt) (op : CacheOp)
    (h : CacheInv envY σ) : CacheInv envY (runOp envY σ op) := by
  cases op with
  | get k year => exact (cacheInv_get envY k year σ h).1
  | mutate i v =>
    show CacheInv envY (match σ.ret.get? i with
      | some a => ⟨heapWrite σ.heap a v, σ.cacheAddr, σ.fresh, σ.ret⟩
      | none => σ)
    cases hga : σ.ret.get? i with
    | none => exact h
    | some a =>
      obtain ⟨hcache, hret⟩ := h
      have hamem : a ∈ σ.ret := List.get?_mem hga
      constructor
      · intro key b hb
        obtain ⟨hv2, hl2, hn2⟩ := hcache key b hb
        refine ⟨?_, hl2, hn2⟩
        show heapWrite σ.heap a v b = _
        unfold heapWrite
        rw [if_neg (fun hba => hn2 (by rw [hba]; exact hamem))]
        exact hv2
      · exact hret

theorem cacheInv_runOps (envY : Nat → SessEnv) (ops : List CacheOp) :
    ∀ (σ : CacheSt), CacheInv envY σ → CacheInv envY (runOps envY ops σ) := by
  induction ops with
  | nil => intro σ h; exact h
  | cons op rest ih =>
    intro σ h
    exact ih _ (cacheInv_runOp envY σ op h)

/-! ## Claims C3 and C10 -/

/-- C3: the checkpoint after k race weeks computed incrementally —
checkpoint for k-1 extended with the single race week at index k-1 —
equals the checkpoint computed from scratch over the first k weeks; and
for any cache state satisfying the cache invariant, serving
get_points_after_race_week(k) from the cache and recomputing it give
the identical mapping (both equal the from-scratch value). -/
theorem standings_incremental_and_cache_idempotent
    (envY : Nat → SessEnv) (k year : Nat) (σ : CacheSt)
    (h1 : 1 ≤ k) (h2 : k ≤ (envY year).raceKeys.length)
    (hσ : CacheInv envY σ) :
    get_points_pure (envY year) k =
      weekStep (envY year) (get_points_pure (envY year) (k - 1)) (k - 1) ∧
    ((get_points_state envY k year σ).2.heap
        (get_points_state envY k year σ).1 = get_points_pure (envY year) k ∧
      (get_points_state envY k year
          ((get_points_state envY k year σ).2)).2.heap
        (get_points_state envY k year
          ((get_points_state envY k year σ).2)).1 =
        get_points_pure (envY year) k) := by
  constructor
  · obtain ⟨m, rfl⟩ : ∃ m, k = m + 1 := ⟨k - 1, by omega⟩
    simp only [Nat.add_sub_cancel]
    unfold get_points_pure
    have hm1 : min (m + 1) (envY year).raceKeys.length = m + 1 := by omega
    have hm2 : min m (envY year).raceKeys.length = m := by omega
    rw [hm1, hm2, List.range_succ, List.foldl_append]
    rfl
  · have hg1 := cacheInv_get envY k year σ hσ
    have hg2 := cacheInv_get envY k year _ hg1.1
    exact ⟨hg1.2.1, hg2.2.1⟩

theorem standings_incremental_and_cache_idempotent_wit :
    1 ≤ env0.raceKeys.length ∧
    (get_points_pure env0 1 =
        weekStep env0 (get_points_pure env0 0) 0 ∧
      ((get_points_state (fun _ => env0) 1 2025 initCache).2.heap
          (get_points_state (fun _ => env0) 1 2025 initCache).1 =
          get_points_pure env0 1 ∧
        (get_points_state (fun _ => env0) 1 2025
            ((get_points_state (fun _ => env0) 1 2025 initCache).2)).2.heap
          (get_points_state (fun _ => env0) 1 2025
            ((get_points_state (fun _ => env0) 1 2025 initCache).2)).1 =
          get_points_pure env0 1)) :=
  ⟨by decide,
    standings_incremental_and_cache_idempotent (fun _ => env0) 1 2025
      initCache (le_refl 1) (by decide) (cacheInv_init _)⟩

/-- C10: the cached checkpoint is never aliased to the caller.  After
any sequence of calls and caller-side mutations of previously returned
dicts, a call of get_points_after_race_week(k, year) returns exactly
the from-scratch value — so mutating a returned mapping leaves every
later call unchanged — and the returned address is never an address the
cache holds. -/
theorem get_points_never_aliases_cache (envY : Nat → SessEnv)
    (ops : List CacheOp) (k year : Nat) :
    (get_points_state envY k year (runOps envY ops initCache)).2.heap
      (get_points_state envY k year (runOps envY ops initCache)).1 =
      get_points_pure (envY year) k ∧
    ∀ key,
      (get_points_state envY k year (runOps envY ops initCache)).2.cacheAddr
        key ≠ some (get_points_state envY k year (runOps envY ops initCache)).1 := by
  have hinv := cacheInv_runOps envY ops initCache (cacheInv_init envY)
  have hg := cacheInv_get envY k year _ hinv
  exact ⟨hg.2.1, hg.2.2⟩

/-! ## The season simulator (src/gui_simulator.py, simulate)

The trial count is a parameter: the GUI runs 1000 trials, the script
variant (src/Total_points.py, main) runs 2000.  A trial clones the
current points over the roster, replays the remaining races and sprints
through the order generator, applies the two points tables, and
declares the leader; the simulator counts the trials won by each
tracked (top-5) competitor. -/

def race_points : List Int :=
  [25, 18, 15, 12, 10, 8, 6, 4, 2, 1, 0, 0, 0, 0, 0, 0, 0, 0, 0, 0]

def sprint_points : List Int :=
  [8, 7, 6, 5, 4, 3, 2, 1, 0, 0, 0, 0, 0, 0, 0, 0, 0, 0, 0, 0]

/-- sim_points[d] += x: a missing key is a KeyError (none). -/
def bumpKey (m : PMap) (d x : Int) : Option PMap :=
  match lookupP m d with
  | some v => some (setKey m d (v + x))
  | none => none

/-- for pos, d in enumerate(order): sim_points[d] += pts[pos]; an
out-of-range pos is an IndexError (none). -/
def addOrderPoints (m : PMap) (order : List Int) (pts : List Int) :
    Option PMap :=
  (order.enum).foldlM (fun m2 pr => do
    let p ← pts.get? pr.1
    bumpKey m2 pr.2 p) m

/-- winner = max(sim_points, key=sim_points.get): Python max keeps the
first maximal key in dict order and raises on an empty dict. -/
def pyMaxKey (m : PMap) : Option Int :=
  match m with
  | [] => none
  | kv :: rest =>
    some ((rest.foldl (fun best x => if x.2 > best.2 then x else best) kv).1)

/-- sorted(current_points.items(), key=lambda x: x[1], reverse=True):
Python sorted is stable and here orders by value descending. -/
def sortDesc (items : List (Int × Int)) : List (Int × Int) :=
  items.mergeSort (fun a b => decide (b.2 ≤ a.2))

/-- top_5 = [d for d, _ in sorted_top[:5]] -/
def topFive (items : List (Int × Int)) : List Int :=
  ((sortDesc items).take 5).map (fun x => x.1)

/-- One race inside a trial: draw an order from the generator and add
race_points[pos] at every one of the 20 positions. -/
def raceStep (drv racePts : List Int) (scns : Nat → List Scen)
    (t5 : Option (List Int)) (tape : Nat → RTape) (m : PMap) (r : Nat) :
    Option PMap :=
  (generate_order_with_constraints drv (scns r) t5 (tape r)).bind
    (fun order => addOrderPoints m order racePts)

/-- One sprint inside a trial: only the first eight positions score,
with the sprint table. -/
def sprintStep (drv sprPts : List Int) (scns : Nat → List Scen) (nR : Nat)
    (t5 : Option (List Int)) (tape : Nat → RTape) (m : PMap) (s : Nat) :
    Option PMap :=
  (generate_order_with_constraints drv (scns (nR + s)) t5
    (tape (nR + s))).bind
    (fun order => addOrderPoints m (order.take 8) sprPts)

/-- One trial of simulate(): clone the current points over the roster,
replay the remaining races then sprints, and declare the leader. -/
def runTrial (drv racePts sprPts : List Int) (nR nS : Nat)
    (cur : List (Int × Int)) (scns : Nat → List Scen)
    (t5 : Option (List Int)) (tape : Nat → RTape) : Option Int :=
  (((List.range nR).foldlM (raceStep drv racePts scns t5 tape)
      (drv.map (fun d => (d, lookupD cur d)))).bind
    (fun m1 => ((List.range nS).foldlM (sprintStep drv sprPts scns nR t5 tape)
      m1).bind pyMaxKey))

/-- if winner in win_counts: win_counts[winner] += 1 -/
def bumpWin : List (Int × Nat) → Int → List (Int × Nat)
  | [], _ => []
  | p :: rest, w =>
    if p.1 = w then (p.1, p.2 + 1) :: rest else p :: bumpWin rest w

/-- simulate() with the trial count and all module globals as
parameters: derive the tracked top-5 from the current points, zero
their counters, run the trials, and return the win counters. -/
def simulateCore (drv racePts sprPts : List Int) (nR nS : Nat)
    (cur : List (Int × Int)) (scns : Nat → List Scen) (nsims : Nat)
    (gtape : Nat → Nat → RTape) : Option (List (Int × Nat)) :=
  (List.range nsims).foldlM (fun wc t =>
      (runTrial drv racePts sprPts nR nS cur scns
        (some (topFive cur)) (gtape t)).map (fun w => bumpWin wc w))
    ((topFive cur).map (fun d => (d, 0)))

theorem generate_empty_roster (scn : List Scen) (t5 : Option (List Int))
    (tape : RTape) :
    generate_order_with_constraints [] scn t5 tape = none := rfl

/-! ## Total success of a trial on well-formed data -/

theorem lookupP_m0_isSome (cur : List (Int × Int)) (d : Int) :
    ∀ (drv : List Int),
    ((lookupP (drv.map (fun x => (x, lookupD cur x))) d).isSome = true ↔
      d ∈ drv) := by
  intro drv
  induction drv with
  | nil => simp [lookupP]
  | cons a rest ih =>
    show ((if a = d then some (lookupD cur a) else
      lookupP (rest.map (fun x => (x, lookupD cur x))) d).isSome = true ↔ _)
    by_cases h : a = d
    · subst h
      simp
    · rw [if_neg h, ih, List.mem_cons]
      constructor
      · intro hmem; exact Or.inr hmem
      · rintro (hda | hmem)
        · exact absurd hda.symm h
        · exact hmem

theorem bumpKey_some (m : PMap) (d x : Int)
    (h : (lookupP m d).isSome = true) :
    ∃ m2, bumpKey m d x = some m2 ∧
      ∀ d2, (lookupP m2 d2).isSome = (lookupP m d2).isSome := by
  unfold bumpKey
  cases hl : lookupP m d with
  | none => rw [hl] at h; cases h
  | some v =>
    refine ⟨setKey m d (v + x), rfl, ?_⟩
    intro d2
    by_cases h2 : d2 = d
    · subst h2
      rw [lookupP_setKey_self d2 (v + x) v m hl, hl]
      rfl
    · rw [lookupP_setKey_ne d (v + x) d2 h2 m]

theorem foldPoints_some (pts : List Int) : ∀ (prs : List (Nat × Int))
    (m : PMap),
    (∀ pr ∈ prs, pr.1 < pts.length) →
    (∀ pr ∈ prs, (lookupP m pr.2).isSome = true) →
    ∃ m2, prs.foldlM (fun m2 pr => do
        let p ← pts.get? pr.1
        bumpKey m2 pr.2 p) m = some m2 ∧
      ∀ d, (lookupP m2 d).isSome = (lookupP m d).isSome := by
  intro prs
  induction prs with
  | nil => intro m _ _; exact ⟨m, rfl, fun d => rfl⟩
  | cons pr rest ih =>
    intro m hidx hkey
    have hlt : pr.1 < pts.length := hidx pr (List.mem_cons_self _ _)
    have hp : pts.get? pr.1 = some (pts.get ⟨pr.1, hlt⟩) :=
      List.get?_eq_get hlt
    obtain ⟨m1, hm1, hk1⟩ :=
      bumpKey_some m pr.2 (pts.get ⟨pr.1, hlt⟩)
        (hkey pr (List.mem_cons_self _ _))
    obtain ⟨m2, hm2, hk2⟩ := ih m1
      (fun x hx => hidx x (List.mem_cons_of_mem _ hx))
      (fun x hx => by rw [hk1]; exact hkey x (List.mem_cons_of_mem _ hx))
    refine ⟨m2, ?_, fun d => (hk2 d).trans (hk1 d)⟩
    rw [List.foldlM_cons]
    have hstep : (do
        let p ← pts.get? pr.1
        bumpKey m pr.2 p) = some m1 := by
      rw [hp]
      exact hm1
    rw [hstep]
    exact hm2

theorem addOrderPoints_some (m : PMap) (order pts : List Int)
    (hlen : order.length ≤ pts.length)
    (hmem : ∀ d ∈ order, (lookupP m d).isSome = true) :
    ∃ m2, addOrderPoints m order pts = some m2 ∧
      ∀ d, (lookupP m2 d).isSome = (lookupP m d).isSome := by
  apply foldPoints_some
  · intro pr hpr
    obtain ⟨i, a⟩ := pr
    rw [List.mk_mem_enum_iff_getElem?] at hpr
    show i < pts.length
    by_contra hge
    rw [List.getElem?_eq_none (by omega)] at hpr
    cases hpr
  · intro pr hpr
    obtain ⟨i, a⟩ := pr
    rw [List.mk_mem_enum_iff_getElem?] at hpr
    exact hmem a (List.getElem?_mem hpr)

theorem pyMaxKey_some (m : PMap) (h : m ≠ []) :
    ∃ w, pyMaxKey m = some w := by
  cases m with
  | nil => exact absurd rfl h
  | cons kv rest => exact ⟨_, rfl⟩

theorem foldlM_inv_some (step : PMap → Nat → Option PMap)
    (Inv : PMap → Prop)
    (hstep : ∀ m e, Inv m → ∃ m2, step m e = some m2 ∧ Inv m2) :
    ∀ (es : List Nat) (m : PMap), Inv m →
    ∃ m2, es.foldlM step m = some m2 ∧ Inv m2 := by
  intro es
  induction es with
  | nil => intro m h; exact ⟨m, rfl, h⟩
  | cons e rest ih =>
    intro m h
    obtain ⟨m1, hm1, h1⟩ := hstep m e h
    obtain ⟨m2, hm2, h2⟩ := ih m1 h1
    refine ⟨m2, ?_, h2⟩
    rw [List.foldlM_cons, hm1]
    exact hm2

theorem raceStep_some (drv racePts : List Int) (scns : Nat → List Scen)
    (t5 : Option (List Int)) (tape : Nat → RTape)
    (hlen : drv.length = 20) (hnd : drv.Nodup)
    (htape : ∀ e, TapeOK drv (tape e))
    (ht5 : ∀ l, t5 = some l → l.Nodup) (hrp : 20 ≤ racePts.length)
    (m : PMap) (r : Nat)
    (hInv : ∀ d, (lookupP m d).isSome = true ↔ d ∈ drv) :
    ∃ m2, raceStep drv racePts scns t5 tape m r = some m2 ∧
      ∀ d, (lookupP m2 d).isSome = true ↔ d ∈ drv := by
  obtain ⟨order, hgen, hperm⟩ :=
    generate_ok drv (scns r) t5 (tape r) hlen hnd (htape r) ht5
  obtain ⟨m2, hadd, hk⟩ := addOrderPoints_some m order racePts
    (by rw [hperm.length_eq, hlen]; exact hrp)
    (fun d hd => (hInv d).mpr (hperm.subset hd))
  refine ⟨m2, ?_, fun d => by rw [hk d]; exact hInv d⟩
  unfold raceStep
  rw [hgen]
  exact hadd

theorem sprintStep_some (drv sprPts : List Int) (scns : Nat → List Scen)
    (nR : Nat) (t5 : Option (List Int)) (tape : Nat → RTape)
    (hlen : drv.length = 20) (hnd : drv.Nodup)
    (htape : ∀ e, TapeOK drv (tape e))
    (ht5 : ∀ l, t5 = some l → l.Nodup) (hsp : 8 ≤ sprPts.length)
    (m : PMap) (s : Nat)
    (hInv : ∀ d, (lookupP m d).isSome = true ↔ d ∈ drv) :
    ∃ m2, sprintStep drv sprPts scns nR t5 tape m s = some m2 ∧
      ∀ d, (lookupP m2 d).isSome = true ↔ d ∈ drv := by
  obtain ⟨order, hgen, hperm⟩ :=
    generate_ok drv (scns (nR + s)) t5 (tape (nR + s)) hlen hnd
      (htape (nR + s)) ht5
  obtain ⟨m2, hadd, hk⟩ := addOrderPoints_some m (order.take 8) sprPts
    (le_trans (by simp) hsp)
    (fun d hd => (hInv d).mpr (hperm.subset (List.mem_of_mem_take hd)))
  refine ⟨m2, ?_, fun d => by rw [hk d]; exact hInv d⟩
  unfold sprintStep
  rw [hgen]
  exact hadd

theorem runTrial_some (drv racePts sprPts : List Int) (nR nS : Nat)
    (cur : List (Int × Int)) (scns : Nat → List Scen)
    (t5 : Option (List Int)) (tape : Nat → RTape)
    (hlen : drv.length = 20) (hnd : drv.Nodup)
    (htape : ∀ e, TapeOK drv (tape e))
    (ht5 : ∀ l, t5 = some l → l.Nodup)
    (hrp : 20 ≤ racePts.length) (hsp : 8 ≤ sprPts.length) :
    ∃ w, runTrial drv racePts sprPts nR nS cur scns t5 tape = some w := by
  have hInv0 : ∀ d, (lookupP (drv.map (fun x => (x, lookupD cur x)))
      d).isSome = true ↔ d ∈ drv := fun d => lookupP_m0_isSome cur d drv
  obtain ⟨m1, hm1, h1⟩ := foldlM_inv_some
    (raceStep drv racePts scns t5 tape) _
    (raceStep_some drv racePts scns t5 tape hlen hnd htape ht5 hrp)
    (List.range nR) _ hInv0
  obtain ⟨m2, hm2, h2⟩ := foldlM_inv_some
    (sprintStep drv sprPts scns nR t5 tape) _
    (sprintStep_some drv sprPts scns nR t5 tape hlen hnd htape ht5 hsp)
    (List.range nS) m1 h1
  have hne : m2 ≠ [] := by
    intro hnil
    have hd0 : (0 : Int) ∈ drv ∨ drv ≠ [] := by
      right
      intro hdrv
      rw [hdrv] at hlen
      cases hlen
    cases drv with
    | nil => rw [show ([] : List Int).length = 0 from rfl] at hlen; cases hlen
    | cons d0 rest =>
      have := (h2 d0).mpr (List.mem_cons_self _ _)
      rw [hnil] at this
      cases this
  obtain ⟨w, hw⟩ := pyMaxKey_some m2 hne
  refine ⟨w, ?_⟩
  unfold runTrial
  rw [hm1]
  show ((List.range nS).foldlM (sprintStep drv sprPts scns nR t5 tape)
    m1).bind pyMaxKey = some w
  rw [hm2]
  exact hw

/-! ## Counting the win counters -/

theorem topFive_nodup (cur : List (Int × Int))
    (h : (cur.map (fun x => x.1)).Nodup) : (topFive cur).Nodup := by
  unfold topFive sortDesc
  have hperm : List.Perm (cur.mergeSort (fun a b => decide (b.2 ≤ a.2))) cur :=
    List.mergeSort_perm cur _
  have hmap : ((cur.mergeSort (fun a b => decide (b.2 ≤ a.2))).map
      (fun x => x.1)).Nodup :=
    ((hperm.map (fun x => x.1)).nodup_iff).mpr h
  rw [List.map_take]
  exact (List.take_sublist 5 _).nodup hmap

theorem bumpWin_map (g : Int → Nat) (w : Int) : ∀ (top5 : List Int),
    top5.Nodup →
    bumpWin (top5.map (fun c => (c, g c))) w =
      top5.map (fun c => (c, if c = w then g c + 1 else g c)) := by
  intro top5
  induction top5 with
  | nil => intro _; rfl
  | cons c0 rest ih =>
    intro hnd
    show (if c0 = w then (c0, g c0 + 1) :: rest.map (fun c => (c, g c))
        else (c0, g c0) :: bumpWin (rest.map (fun c => (c, g c))) w) = _
    by_cases h : c0 = w
    · rw [if_pos h, List.map_cons, if_pos h]
      congr 1
      apply List.map_congr_left
      intro a ha
      have haw : a ≠ w := by
        intro haw
        exact (List.nodup_cons.mp hnd).1 (by rw [h, ← haw]; exact ha)
      rw [if_neg haw]
    · rw [if_neg h, List.map_cons, if_neg h,
        ih (List.nodup_cons.mp hnd).2]

theorem simulateFold (drv racePts sprPts : List Int) (nR nS : Nat)
    (cur : List (Int × Int)) (scns : Nat → List Scen)
    (gtape : Nat → Nat → RTape) (L : Nat → Int)
    (hL : ∀ t, runTrial drv racePts sprPts nR nS cur scns
      (some (topFive cur)) (gtape t) = some (L t))
    (hnd5 : (topFive cur).Nodup) : ∀ (ts : List Nat) (g : Int → Nat),
    ts.foldlM (fun wc t =>
        (runTrial drv racePts sprPts nR nS cur scns (some (topFive cur))
          (gtape t)).map (fun w => bumpWin wc w))
      ((topFive cur).map (fun c => (c, g c))) =
      some ((topFive cur).map (fun c =>
        (c, g c + (ts.filter (fun t => L t = c)).length))) := by
  intro ts
  induction ts with
  | nil =>
    intro g
    simp
  | cons t ts ih =>
    intro g
    rw [List.foldlM_cons, hL t]
    have hx := ih (fun c => if c = L t then g c + 1 else g c)
    rw [← bumpWin_map g (L t) (topFive cur) hnd5] at hx
    have h2 : (topFive cur).map (fun c =>
        (c, (if c = L t then g c + 1 else g c) +
          (ts.filter (fun x => L x = c)).length)) =
        (topFive cur).map (fun c =>
          (c, g c + ((t :: ts).filter (fun x => L x = c)).length)) := by
      apply List.map_congr_left
      intro a _
      by_cases hc : a = L t
      · have hc2 : decide (L t = a) = true := decide_eq_true hc.symm
        rw [if_pos hc,
          List.filter_cons_of_pos (p := fun x => decide (L x = a)) hc2,
          List.length_cons]
        congr 1
        omega
      · have hc2 : ¬decide (L t = a) = true := by
          intro hh
          exact hc (of_decide_eq_true hh).symm
        rw [if_neg hc,
          List.filter_cons_of_neg (p := fun x => decide (L x = a)) hc2]
    rw [h2] at hx
    exact hx

theorem count_split (L : Nat → Int) (c0 : Int) (rest : List Int)
    (h : c0 ∉ rest) : ∀ (ts : List Nat),
    (ts.filter (fun t => decide (L t ∈ c0 :: rest))).length =
      (ts.filter (fun t => L t = c0)).length +
        (ts.filter (fun t => decide (L t ∈ rest))).length := by
  intro ts
  induction ts with
  | nil => rfl
  | cons t ts ih =>
    by_cases h1 : L t = c0
    · have e1 : decide (L t ∈ c0 :: rest) = true := by
        apply decide_eq_true
        rw [h1]
        exact List.mem_cons_self _ _
      have e2 : decide (L t = c0) = true := decide_eq_true h1
      have e3 : ¬decide (L t ∈ rest) = true := by
        intro hh
        rw [h1] at hh
        exact h (of_decide_eq_true hh)
      rw [List.filter_cons_of_pos
          (p := fun t => decide (L t ∈ c0 :: rest)) e1,
        List.filter_cons_of_pos (p := fun t => decide (L t = c0)) e2,
        List.filter_cons_of_neg (p := fun t => decide (L t ∈ rest)) e3,
        List.length_cons, List.length_cons]
      omega
    · by_cases h2 : L t ∈ rest
      · have e1 : decide (L t ∈ c0 :: rest) = true :=
          decide_eq_true (List.mem_cons_of_mem _ h2)
        have e2 : ¬decide (L t = c0) = true := by
          intro hh
          exact h1 (of_decide_eq_true hh)
        have e3 : decide (L t ∈ rest) = true := decide_eq_true h2
        rw [List.filter_cons_of_pos
            (p := fun t => decide (L t ∈ c0 :: rest)) e1,
          List.filter_cons_of_neg (p := fun t => decide (L t = c0)) e2,
          List.filter_cons_of_pos (p := fun t => decide (L t ∈ rest)) e3,
          List.length_cons, List.length_cons]
        omega
      · have e1 : ¬decide (L t ∈ c0 :: rest) = true := by
          intro hh
          rcases List.mem_cons.mp (of_decide_eq_true hh) with hc | hc
          · exact h1 hc
          · exact h2 hc
        have e2 : ¬decide (L t = c0) = true := by
          intro hh
          exact h1 (of_decide_eq_true hh)
        have e3 : ¬decide (L t ∈ rest) = true := by
          intro hh
          exact h2 (of_decide_eq_true hh)
        rw [List.filter_cons_of_neg
            (p := fun t => decide (L t ∈ c0 :: rest)) e1,
          List.filter_cons_of_neg (p := fun t => decide (L t = c0)) e2,
          List.filter_cons_of_neg (p := fun t => decide (L t ∈ rest)) e3]
        exact ih

theorem filter_mem_split (L : Nat → Int) : ∀ (top5 : List Int),
    top5.Nodup → ∀ (ts : List Nat),
    (top5.map (fun c => (ts.filter (fun t => L t = c)).length)).sum =
      (ts.filter (fun t => decide (L t ∈ top5))).length := by
  intro top5
  induction top5 with
  | nil =>
    intro _ ts
    simp
  | cons c0 rest ih =>
    intro hnd ts
    rw [List.map_cons, List.sum_cons, ih (List.nodup_cons.mp hnd).2 ts,
      count_split L c0 rest (List.nodup_cons.mp hnd).1 ts]

theorem sum_div_cast (n : ℚ) : ∀ (cs : List Nat),
    (cs.map (fun x : Nat => (x : ℚ) / n)).sum = (cs.sum : ℚ) / n := by
  intro cs
  induction cs with
  | nil => simp
  | cons c cs ih =>
    rw [List.map_cons, List.sum_cons, ih, List.sum_cons]
    push_cast
    ring

/-- C5: on well-formed data every trial declares a leader L t; the
simulator returns, for each tracked competitor c (the current top five),
the count of trials whose leader is c; each count divided by the trial
count lies in [0, 1]; the counts summed over the tracked set equal the
number of trials whose leader is tracked, so a trial won by an untracked
competitor increments no counter and the probabilities sum to at most
1. -/
theorem simulate_win_probability (drv racePts sprPts : List Int)
    (nR nS : Nat) (cur : List (Int × Int)) (scns : Nat → List Scen)
    (nsims : Nat) (gtape : Nat → Nat → RTape)
    (hlen : drv.length = 20) (hnd : drv.Nodup)
    (htape : ∀ t e, TapeOK drv (gtape t e))
    (hcur : (cur.map (fun x => x.1)).Nodup)
    (hrp : 20 ≤ racePts.length) (hsp : 8 ≤ sprPts.length)
    (hpos : 0 < nsims) :
    ∃ L : Nat → Int,
      (∀ t, runTrial drv racePts sprPts nR nS cur scns (some (topFive cur))
        (gtape t) = some (L t)) ∧
      simulateCore drv racePts sprPts nR nS cur scns nsims gtape =
        some ((topFive cur).map (fun c =>
          (c, ((List.range nsims).filter (fun t => L t = c)).length))) ∧
      (∀ c, (0 : ℚ) ≤
          (((List.range nsims).filter (fun t => L t = c)).length : ℚ) /
            (nsims : ℚ) ∧
        (((List.range nsims).filter (fun t => L t = c)).length : ℚ) /
          (nsims : ℚ) ≤ 1) ∧
      ((topFive cur).map (fun c =>
          ((List.range nsims).filter (fun t => L t = c)).length)).sum =
        ((List.range nsims).filter
          (fun t => decide (L t ∈ topFive cur))).length ∧
      ((topFive cur).map (fun c =>
          (((List.range nsims).filter (fun t => L t = c)).length : ℚ) /
            (nsims : ℚ))).sum ≤ 1 := by
  have hnd5 : (topFive cur).Nodup := topFive_nodup cur hcur
  have hall : ∀ t, ∃ w, runTrial drv racePts sprPts nR nS cur scns
      (some (topFive cur)) (gtape t) = some w := by
    intro t
    exact runTrial_some drv racePts sprPts nR nS cur scns
      (some (topFive cur)) (gtape t) hlen hnd (htape t)
      (fun l hl => by injection hl with hl; rw [← hl]; exact hnd5) hrp hsp
  have hL : ∀ t, runTrial drv racePts sprPts nR nS cur scns
      (some (topFive cur)) (gtape t) =
      some ((runTrial drv racePts sprPts nR nS cur scns
        (some (topFive cur)) (gtape t)).getD 0) := by
    intro t
    obtain ⟨w, hw⟩ := hall t
    rw [hw]
    rfl
  have hn : (0 : ℚ) < (nsims : ℚ) := by exact_mod_cast hpos
  refine ⟨fun t => (runTrial drv racePts sprPts nR nS cur scns
    (some (topFive cur)) (gtape t)).getD 0, hL, ?_, ?_, ?_, ?_⟩
  · have hf := simulateFold drv racePts sprPts nR nS cur scns gtape
      (fun t => (runTrial drv racePts sprPts nR nS cur scns
        (some (topFive cur)) (gtape t)).getD 0) hL hnd5
      (List.range nsims) (fun _ => 0)
    unfold simulateCore
    rw [hf]
    simp
  · intro c
    have hle : ((List.range nsims).filter (fun t =>
        (runTrial drv racePts sprPts nR nS cur scns (some (topFive cur))
          (gtape t)).getD 0 = c)).length ≤ nsims := by
      calc ((List.range nsims).filter _).length
          ≤ (List.range nsims).length := List.length_filter_le _ _
        _ = nsims := List.length_range nsims
    constructor
    · apply div_nonneg
      · exact Nat.cast_nonneg _
      · exact le_of_lt hn
    · rw [div_le_one hn]
      exact_mod_cast hle
  · exact filter_mem_split (fun t => (runTrial drv racePts sprPts nR nS cur
      scns (some (topFive cur)) (gtape t)).getD 0) (topFive cur) hnd5
      (List.range nsims)
  · have hsum := filter_mem_split (fun t => (runTrial drv racePts sprPts nR
      nS cur scns (some (topFive cur)) (gtape t)).getD 0) (topFive cur)
      hnd5 (List.range nsims)
    have hle : ((List.range nsims).filter (fun t =>
        decide ((runTrial drv racePts sprPts nR nS cur scns
          (some (topFive cur)) (gtape t)).getD 0 ∈ topFive cur))).length ≤
        nsims := by
      calc ((List.range nsims).filter _).length
          ≤ (List.range nsims).length := List.length_filter_le _ _
        _ = nsims := List.length_range nsims
    have hmm : (topFive cur).map (fun c =>
        ((((List.range nsims).filter (fun t =>
          (runTrial drv racePts sprPts nR nS cur scns (some (topFive cur))
            (gtape t)).getD 0 = c)).length : ℚ) / (nsims : ℚ))) =
        (((topFive cur).map (fun c =>
          ((List.range nsims).filter (fun t =>
            (runTrial drv racePts sprPts nR nS cur scns (some (topFive cur))
              (gtape t)).getD 0 = c)).length) : List Nat)).map
          (fun x : Nat => (x : ℚ) / (nsims : ℚ)) := by
      rw [List.map_map]
      rfl
    rw [hmm, sum_div_cast, hsum, div_le_one hn]
    exact_mod_cast hle

/-- A one-car current-points table: its top five is just [1]. -/
def curC5 : List (Int × Int) := [(1, 10)]

/-- Witness for C5 at a concrete instance: the 20-driver roster, the
real points tables, one race, one sprint, one trial, constant tape. -/
theorem simulate_win_probability_wit :
    drivers20.length = 20 ∧ drivers20.Nodup ∧
    (curC5.map (fun x => x.1)).Nodup ∧ 20 ≤ race_points.length ∧
    8 ≤ sprint_points.length ∧ 0 < 1 ∧
    (∃ L : Nat → Int,
      (∀ t, runTrial drivers20 race_points sprint_points 1 1 curC5
        (fun _ => []) (some (topFive curC5)) (fun _ => tape20) =
          some (L t)) ∧
      simulateCore drivers20 race_points sprint_points 1 1 curC5
        (fun _ => []) 1 (fun _ _ => tape20) =
        some ((topFive curC5).map (fun c =>
          (c, ((List.range 1).filter (fun t => L t = c)).length))) ∧
      (∀ c, (0 : ℚ) ≤
          (((List.range 1).filter (fun t => L t = c)).length : ℚ) /
            ((1 : Nat) : ℚ) ∧
        (((List.range 1).filter (fun t => L t = c)).length : ℚ) /
          ((1 : Nat) : ℚ) ≤ 1) ∧
      ((topFive curC5).map (fun c =>
          ((List.range 1).filter (fun t => L t = c)).length)).sum =
        ((List.range 1).filter
          (fun t => decide (L t ∈ topFive curC5))).length ∧
      ((topFive curC5).map (fun c =>
          (((List.range 1).filter (fun t => L t = c)).length : ℚ) /
            ((1 : Nat) : ℚ))).sum ≤ 1) :=
  ⟨by decide, by decide, by decide, by decide, by decide, by decide,
    simulate_win_probability drivers20 race_points sprint_points 1 1 curC5
      (fun _ => []) 1 (fun _ _ => tape20) (by decide) (by decide)
      (fun _ _ => ⟨fun _ => (⟨by decide, by decide, by decide⟩ :
          SampleOK drivers20 drivers20),
        fun _ l => List.Perm.refl l⟩)
      (by decide) (by decide) (by decide) (by decide)⟩

/-! ## Claim C8: boundary validation of simulate -/

theorem runTrial_empty_roster (racePts sprPts : List Int) (nR nS : Nat)
    (cur : List (Int × Int)) (scns : Nat → List Scen)
    (t5 : Option (List Int)) (tape : Nat → RTape) (hR : 1 ≤ nR) :
    runTrial [] racePts sprPts nR nS cur scns t5 tape = none := by
  obtain ⟨r, rfl⟩ : ∃ r, nR = r + 1 := ⟨nR - 1, by omega⟩
  unfold runTrial
  rw [List.range_succ_eq_map, List.foldlM_cons]
  have h0 : raceStep [] racePts scns t5 tape
      (List.map (fun d => (d, lookupD cur d)) []) 0 = none := by
    unfold raceStep
    rw [generate_empty_roster]
    rfl
  rw [h0]
  rfl

theorem simulateCore_empty_roster (racePts sprPts : List Int)
    (nR nS : Nat) (cur : List (Int × Int)) (scns : Nat → List Scen)
    (gtape : Nat → Nat → RTape) (nsims : Nat) (hR : 1 ≤ nR)
    (hs : 1 ≤ nsims) :
    simulateCore [] racePts sprPts nR nS cur scns nsims gtape = none := by
  obtain ⟨s, rfl⟩ : ∃ s, nsims = s + 1 := ⟨nsims - 1, by omega⟩
  unfold simulateCore
  rw [List.range_succ_eq_map, List.foldlM_cons]
  have h0 : (runTrial [] racePts sprPts nR nS cur scns
      (some (topFive cur)) (gtape 0)).map
      (fun w => bumpWin ((topFive cur).map (fun d => (d, 0))) w) = none := by
    rw [runTrial_empty_roster racePts sprPts nR nS cur scns
      (some (topFive cur)) (gtape 0) hR]
    rfl
  rw [h0]
  rfl

theorem simulateTrials_some (drv racePts sprPts : List Int) (nR nS : Nat)
    (cur : List (Int × Int)) (scns : Nat → List Scen)
    (gtape : Nat → Nat → RTape)
    (hall : ∀ t, ∃ w, runTrial drv racePts sprPts nR nS cur scns
      (some (topFive cur)) (gtape t) = some w) :
    ∀ (ts : List Nat) (wc : List (Int × Nat)),
    ∃ out, ts.foldlM (fun wc2 t =>
        (runTrial drv racePts sprPts nR nS cur scns (some (topFive cur))
          (gtape t)).map (fun w => bumpWin wc2 w)) wc = some out := by
  intro ts
  induction ts with
  | nil =>
    intro wc
    exact ⟨wc, rfl⟩
  | cons t ts ih =>
    intro wc
    obtain ⟨w, hw⟩ := hall t
    obtain ⟨out, hout⟩ := ih (bumpWin wc w)
    refine ⟨out, ?_⟩
    rw [List.foldlM_cons, hw]
    exact hout

/-- A race points table whose first entry is negative. -/
def race_points_neg : List Int :=
  [-25, 18, 15, 12, 10, 8, 6, 4, 2, 1, 0, 0, 0, 0, 0, 0, 0, 0, 0, 0]

/-- C8 counterexample: a trial count of zero is not rejected; the
simulator silently returns empty win counters. -/
theorem simulate_zero_trials_accepted :
    simulateCore drivers20 race_points sprint_points 1 1 []
      (fun _ => []) 0 (fun _ _ => tape20) = some [] := by
  simp [simulateCore, topFive, sortDesc, List.mergeSort]

/-- C8 (amended): simulate performs no boundary validation at all.
A non-positive trial count yields the zeroed counters of the tracked
set instead of an error; an empty roster is not rejected up front but
crashes inside the first trial when random.sample asks for 20 of 0
drivers; a points table containing negative values is accepted and the
simulation completes normally. -/
theorem simulate_no_boundary_validation :
    (∀ (drv racePts sprPts : List Int) (nR nS : Nat)
      (cur : List (Int × Int)) (scns : Nat → List Scen)
      (gtape : Nat → Nat → RTape),
      simulateCore drv racePts sprPts nR nS cur scns 0 gtape =
        some ((topFive cur).map (fun d => (d, 0)))) ∧
    (∀ (racePts sprPts : List Int) (nR nS : Nat)
      (cur : List (Int × Int)) (scns : Nat → List Scen)
      (gtape : Nat → Nat → RTape) (nsims : Nat), 1 ≤ nR → 1 ≤ nsims →
      simulateCore [] racePts sprPts nR nS cur scns nsims gtape = none) ∧
    (∀ (drv racePts sprPts : List Int) (nR nS : Nat)
      (cur : List (Int × Int)) (scns : Nat → List Scen)
      (gtape : Nat → Nat → RTape) (nsims : Nat),
      drv.length = 20 → drv.Nodup → (∀ t e, TapeOK drv (gtape t e)) →
      (cur.map (fun x => x.1)).Nodup →
      20 ≤ racePts.length → 8 ≤ sprPts.length →
      (∃ i v, racePts.get? i = some v ∧ v < 0) →
      ∃ wc, simulateCore drv racePts sprPts nR nS cur scns nsims gtape =
        some wc) := by
  refine ⟨?_, ?_, ?_⟩
  · intro drv racePts sprPts nR nS cur scns gtape
    rfl
  · intro racePts sprPts nR nS cur scns gtape nsims hR hs
    exact simulateCore_empty_roster racePts sprPts nR nS cur scns gtape
      nsims hR hs
  · intro drv racePts sprPts nR nS cur scns gtape nsims hlen hnd htape
      hcur hrp hsp _
    have hnd5 : (topFive cur).Nodup := topFive_nodup cur hcur
    have hall : ∀ t, ∃ w, runTrial drv racePts sprPts nR nS cur scns
        (some (topFive cur)) (gtape t) = some w := by
      intro t
      exact runTrial_some drv racePts sprPts nR nS cur scns
        (some (topFive cur)) (gtape t) hlen hnd (htape t)
        (fun l hl => by injection hl with hl; rw [← hl]; exact hnd5)
        hrp hsp
    obtain ⟨out, hout⟩ := simulateTrials_some drv racePts sprPts nR nS cur
      scns gtape hall (List.range nsims)
      ((topFive cur).map (fun d => (d, 0)))
    exact ⟨out, hout⟩

/-- Witness for C8, one instance per conjunct: zero trials return the
zeroed tracked counters; the empty roster crashes; the table with a
negative first entry simulates successfully. -/
theorem simulate_no_boundary_validation_wit :
    simulateCore drivers20 race_points sprint_points 1 1 curC5
      (fun _ => []) 0 (fun _ _ => tape20) =
      some ((topFive curC5).map (fun d => (d, 0))) ∧
    simulateCore [] race_points sprint_points 1 1 curC5
      (fun _ => []) 1 (fun _ _ => tape20) = none ∧
    (∃ wc, simulateCore drivers20 race_points_neg sprint_points 1 1 curC5
      (fun _ => []) 1 (fun _ _ => tape20) = some wc) :=
  ⟨simulate_no_boundary_validation.1 drivers20 race_points sprint_points
      1 1 curC5 (fun _ => []) (fun _ _ => tape20),
    simulate_no_boundary_validation.2.1 race_points sprint_points 1 1
      curC5 (fun _ => []) (fun _ _ => tape20) 1 (by decide) (by decide),
    simulate_no_boundary_validation.2.2 drivers20 race_points_neg
      sprint_points 1 1 curC5 (fun _ => []) (fun _ _ => tape20) 1
      (by decide) (by decide)
      (fun _ _ => ⟨fun _ => (⟨by decide, by decide, by decide⟩ :
          SampleOK drivers20 drivers20),
        fun _ l => List.Perm.refl l⟩)
      (by decide) (by decide) (by decide)
      ⟨0, -25, by decide, by decide⟩⟩

end F1
